import Mathlib

/-!
Verification development for the ipcam-browser media gateway (main.go).

The Go source is shallowly embedded: Go strings are modelled as `List Char`
(the source only manipulates ASCII data), byte slices as `List Nat`, the
file system as the list of paths that currently exist, and the fallible /
stateful operations (cache get, catalog build, background scheduler) as
explicit state-passing functions or step relations.
-/

/-- Go strings are modelled as lists of characters. -/
abbrev Str := List Char

/-- Converts a Lean string literal into the `List Char` model of Go strings. -/
def strOf (s : String) : Str := s.data

/-- Models Go `strings.HasPrefix(s, pre)`. -/
def hasPrefixGo (s pre : Str) : Bool := pre.isPrefixOf s

/-- Models Go `strings.HasSuffix(s, suf)`. -/
def hasSuffixGo (s suf : Str) : Bool := suf.isSuffixOf s

/-- Models Go `strings.TrimSuffix(s, suf)`. -/
def trimSuffixGo (s suf : Str) : Str :=
  if hasSuffixGo s suf then s.take (s.length - suf.length) else s

/-- Models Go `strings.TrimPrefix(s, pre)`. -/
def trimPrefixGo (s pre : Str) : Str :=
  if hasPrefixGo s pre then s.drop pre.length else s

/-- ASCII whitespace recognized by the model of Go `strings.TrimSpace`. -/
def isSpaceGo (c : Char) : Bool :=
  c = ' ' || c = '\t' || c = '\n' || c = '\r'

/-- Models Go `strings.TrimSpace` (the source only feeds it ASCII data). -/
def trimSpaceGo (s : Str) : Str :=
  ((s.dropWhile isSpaceGo).reverse.dropWhile isSpaceGo).reverse

/-- Helper for `containsGo`: does `sub` occur starting at some position of `s`. -/
def containsAt (s sub : Str) : Bool :=
  match s with
  | [] => sub.isPrefixOf []
  | c :: rest => sub.isPrefixOf (c :: rest) || containsAt rest sub

/-- Models Go `strings.Contains(s, sub)`. -/
def containsGo (s sub : Str) : Bool := containsAt s sub

/-- Accumulator-based splitter: `skip` counts separator characters still being
consumed, `cur` is the current field reversed.  Structural recursion on the
input so that concrete instances evaluate inside the kernel. -/
def splitGoAux (sep : Str) : Str → Nat → Str → List Str
  | [], _, cur => [cur.reverse]
  | _ :: rest, Nat.succ skip, cur => splitGoAux sep rest skip cur
  | c :: rest, 0, cur =>
    if sep.isPrefixOf (c :: rest) then
      cur.reverse :: splitGoAux sep rest (sep.length - 1) []
    else
      splitGoAux sep rest 0 (c :: cur)

/-- Models Go `strings.Split(s, sep)`.  Every call site in main.go passes a
non-empty separator, so the empty-separator case is mapped to the identity. -/
def splitGo (sep s : Str) : List Str :=
  if sep = [] then [s] else splitGoAux sep s 0 []

/-- The four tag bytes of an HXVS frame header ("HXVS"). -/
def hxvsTag : List Nat := [72, 88, 86, 83]

/-- The four tag bytes of an HXVF frame header ("HXVF"). -/
def hxvfTag : List Nat := [72, 88, 86, 70]

/-- Does the byte sequence start with the `HXVS` or `HXVF` 4-byte tag?
This models the comparison `string(data[i:i+4]) == "HXVS" || ... == "HXVF"`
performed by `stripHXVSHeaders` in main.go. -/
def isHXTag (data : List Nat) : Bool :=
  hxvsTag.isPrefixOf data || hxvfTag.isPrefixOf data

/-- The scanning loop of `stripHXVSHeaders` (main.go:646-672).  `skip` counts
header bytes still to be discarded; at `skip = 0` the loop checks whether a
recognized 16-byte frame header starts here (tag match and at least 16 bytes
remaining) and if so discards 16 bytes, otherwise copies one byte. -/
def stripHXVSAux : List Nat → Nat → List Nat
  | [], _ => []
  | _ :: rest, Nat.succ skip => stripHXVSAux rest skip
  | b :: rest, 0 =>
    if 16 ≤ (b :: rest).length ∧ isHXTag (b :: rest) = true then
      stripHXVSAux rest 15
    else
      b :: stripHXVSAux rest 0

/-- Models `stripHXVSHeaders` from main.go: removes HXVS/HXVF 16-byte headers
from a raw H.264/H.265 stream in a single linear pass. -/
def stripHXVSHeaders (data : List Nat) : List Nat := stripHXVSAux data 0

/-- Counts the 16-byte frames the scan of `stripHXVSHeaders` recognizes and
removes (the loop's `removed` counter divided by 16). -/
def removedFramesAux : List Nat → Nat → Nat
  | [], _ => 0
  | _ :: rest, Nat.succ skip => removedFramesAux rest skip
  | b :: rest, 0 =>
    if 16 ≤ (b :: rest).length ∧ isHXTag (b :: rest) = true then
      removedFramesAux rest 15 + 1
    else
      removedFramesAux rest 0

/-- Number of recognized frames removed by `stripHXVSHeaders`. -/
def removedFrames (data : List Nat) : Nat := removedFramesAux data 0

/-- Decidable check that a byte sequence contains an HXVS/HXVF tag at some
position (a "marker" in the spec's sense). -/
def hasMarker (data : List Nat) : Bool :=
  (List.range data.length).any (fun i => isHXTag (data.drop i))

/-- Is the character an ASCII decimal digit. -/
def isDigitGo (c : Char) : Bool := '0' ≤ c && c ≤ '9'

/-- Numeric value of a string of ASCII digits, most significant first. -/
def digitsToNat (s : Str) : Nat :=
  s.foldl (fun acc c => acc * 10 + (c.toNat - 48)) 0

/-- Are all characters ASCII digits. -/
def allDigits (s : Str) : Bool := s.all isDigitGo

/-- Exact-fraction model of a Go `float64` value.  `den` is always positive
for values this development constructs.  Every float the claims exercise is
far from any binary-rounding boundary, so exact rational arithmetic and
float64 arithmetic truncate identically. -/
structure GoFloat where
  num : Int
  den : Nat
deriving DecidableEq

/-- The float value 0. -/
def GoFloat.zero : GoFloat := ⟨0, 1⟩

/-- Is the value nonzero (the `den != 0` test in `detectFPS`). -/
def GoFloat.isNonzero (a : GoFloat) : Bool := a.num ≠ 0

/-- Is the value positive (the `fps > 0` test in `detectFPS`). -/
def GoFloat.isPos (a : GoFloat) : Bool := 0 < a.num

/-- Float division `a / b` (only used after checking `b` is nonzero). -/
def GoFloat.fdiv (a b : GoFloat) : GoFloat :=
  if b.num < 0 then ⟨-(a.num * (b.den : Int)), a.den * (-b.num).toNat⟩
  else ⟨a.num * (b.den : Int), a.den * b.num.toNat⟩

/-- The value `a + 0.5` used for round-to-nearest in `detectFPS`. -/
def GoFloat.addHalf (a : GoFloat) : GoFloat := ⟨2 * a.num + (a.den : Int), 2 * a.den⟩

/-- Go's `int(f)` conversion: truncation toward zero. -/
def GoFloat.trunc (a : GoFloat) : Int := Int.tdiv a.num (a.den : Int)

/-- Models `parseFloat` from main.go (`fmt.Sscanf(s, "%f", &f)` returning 0 on
failure).  The `%f` verb skips leading whitespace, reads the next
whitespace-delimited token, and parses it as a decimal number
`[+-]digits[.digits]`; on any parse failure the destination is left at 0.
(Exponent notation, accepted by `%f` but never produced by ffprobe's
frame-rate output, is not modelled.) -/
def parseFloatGo (s : Str) : GoFloat :=
  let tok := (s.dropWhile isSpaceGo).takeWhile (fun c => !(isSpaceGo c))
  let signed : Int × Str :=
    match tok with
    | '-' :: r => (-1, r)
    | '+' :: r => (1, r)
    | r => (1, r)
  match splitGo (strOf ".") signed.2 with
  | [intPart] =>
    if intPart ≠ [] ∧ allDigits intPart = true then
      ⟨signed.1 * (digitsToNat intPart : Int), 1⟩
    else GoFloat.zero
  | [intPart, fracPart] =>
    if allDigits intPart = true ∧ allDigits fracPart = true ∧
        (intPart ≠ [] ∨ fracPart ≠ []) then
      ⟨signed.1 * ((digitsToNat intPart : Int) * (10 : Int) ^ fracPart.length +
        (digitsToNat fracPart : Int)), 10 ^ fracPart.length⟩
    else GoFloat.zero
  | _ => GoFloat.zero

/-- The line-scanning loop of `detectFPS` (main.go:676-717) applied to the
lines of the probe output: for each trimmed line, accept `num/den` (rational)
or a plain decimal; the first line yielding a positive rate is rounded to the
nearest integer by `int(fps + 0.5)`; if no line parses, return 0. -/
def detectFPSLines : List Str → Int
  | [] => 0
  | line :: rest =>
    let l := trimSpaceGo line
    if containsGo l (strOf "/") then
      match splitGo (strOf "/") l with
      | [p0, p1] =>
        let num := parseFloatGo p0
        let den := parseFloatGo p1
        if den.isNonzero then
          let fps := num.fdiv den
          if fps.isPos then fps.addHalf.trunc
          else detectFPSLines rest
        else detectFPSLines rest
      | _ => detectFPSLines rest
    else
      let fps := parseFloatGo l
      if fps.isPos then fps.addHalf.trunc
      else detectFPSLines rest

/-- Models the pure parsing part of `detectFPS`: the raw stdout of the
ffprobe invocation is trimmed and split into lines, then scanned. -/
def detectFPSParse (output : Str) : Int :=
  detectFPSLines (splitGo (strOf "\n") (trimSpaceGo output))

/-- Models the fallback in `convertVideoToMP4` (main.go:761-768): a detected
rate of 0 (detection failed or yielded zero) is replaced by the default 20. -/
def fpsForConvert (fps : Int) : Int := if fps = 0 then 20 else fps

/-- A calendar date-time as produced by Go `time.Parse` with layout
`2006-01-02 15:04:05` (no time zone: treated as UTC). -/
structure DateTime where
  year : Nat
  month : Nat
  day : Nat
  hour : Nat
  minute : Nat
  second : Nat
deriving DecidableEq

/-- Gregorian leap-year rule (as used by Go's `time` package). -/
def isLeapYear (y : Nat) : Bool :=
  (y % 4 = 0 && y % 100 ≠ 0) || y % 400 = 0

/-- Number of days in a month of a given year. -/
def daysInMonth (y m : Nat) : Nat :=
  if m = 2 then (if isLeapYear y then 29 else 28)
  else if m = 4 ∨ m = 6 ∨ m = 9 ∨ m = 11 then 30
  else 31

/-- Days from the civil epoch 1970-01-01 to year `y`, month `m`, day `d`
(the standard days-from-civil algorithm, matching Go's proleptic Gregorian
calendar for all years the program can encounter). -/
def daysFromCivil (y m d : Nat) : Int :=
  let y2 := if m ≤ 2 then y - 1 else y
  let era := y2 / 400
  let yoe := y2 % 400
  let mp := (m + 9) % 12
  let doy := (153 * mp + 2) / 5 + d - 1
  let doe := yoe * 365 + yoe / 4 - yoe / 100 + doy
  (era * 146097 + doe : Int) - 719468

/-- Absolute instant (Unix seconds) of a `DateTime`; this is the quantity Go
`time.Time` comparisons (`Before`, `After`, `Equal`) and `Add` act on. -/
def DateTime.toUnix (t : DateTime) : Int :=
  86400 * daysFromCivil t.year t.month t.day +
    (3600 * t.hour + 60 * t.minute + t.second : Nat)

/-- Unix seconds of Go's zero `time.Time` (January 1, year 1, 00:00:00 UTC),
the value `mustParseTime` in main.go yields on a parse error. -/
def goZeroTimeUnix : Int := DateTime.toUnix ⟨1, 1, 1, 0, 0, 0⟩

/-- Models Go `time.Parse("2006-01-02 15:04:05", s)`: the string must consist
of exactly the 19 layout characters with valid (range-checked) components. -/
def parseGoTimeDT (s : Str) : Option DateTime :=
  match s with
  | [y1, y2, y3, y4, c1, m1, m2, c2, d1, d2, c3, h1, h2, c4, n1, n2, c5, s1, s2] =>
    if c1 = '-' ∧ c2 = '-' ∧ c3 = ' ' ∧ c4 = ':' ∧ c5 = ':' ∧
        allDigits [y1, y2, y3, y4, m1, m2, d1, d2, h1, h2, n1, n2, s1, s2] = true then
      let y := digitsToNat [y1, y2, y3, y4]
      let mo := digitsToNat [m1, m2]
      let da := digitsToNat [d1, d2]
      let h := digitsToNat [h1, h2]
      let mi := digitsToNat [n1, n2]
      let se := digitsToNat [s1, s2]
      if 1 ≤ mo ∧ mo ≤ 12 ∧ 1 ≤ da ∧ da ≤ daysInMonth y mo ∧
          h ≤ 23 ∧ mi ≤ 59 ∧ se ≤ 59 then
        some ⟨y, mo, da, h, mi, se⟩
      else none
    else none
  | _ => none

/-- Instant (Unix seconds) of a timestamp string, when it parses. -/
def parseGoTime (s : Str) : Option Int :=
  (parseGoTimeDT s).map DateTime.toUnix

/-- Two right-aligned decimal digits of `n` (for `n ≤ 99`). -/
def pad2 (n : Nat) : Str :=
  [Char.ofNat (48 + n / 10 % 10), Char.ofNat (48 + n % 10)]

/-- Four right-aligned decimal digits of `n` (for `n ≤ 9999`). -/
def pad4 (n : Nat) : Str :=
  [Char.ofNat (48 + n / 1000 % 10), Char.ofNat (48 + n / 100 % 10),
   Char.ofNat (48 + n / 10 % 10), Char.ofNat (48 + n % 10)]

/-- Models Go `t.Format("2006-01-02_15-04-05")` on a parsed date-time. -/
def formatDownloadTime (t : DateTime) : Str :=
  pad4 t.year ++ strOf "-" ++ pad2 t.month ++ strOf "-" ++ pad2 t.day ++
    strOf "_" ++ pad2 t.hour ++ strOf "-" ++ pad2 t.minute ++
    strOf "-" ++ pad2 t.second

/-- UTF-8 encoding of a character (Go strings are UTF-8 byte slices). -/
def utf8EncodeChar (c : Char) : List Nat :=
  let n := c.toNat
  if n < 128 then [n]
  else if n < 2048 then [192 + n / 64, 128 + n % 64]
  else if n < 65536 then [224 + n / 4096, 128 + n / 64 % 64, 128 + n % 64]
  else [240 + n / 262144, 128 + n / 4096 % 64, 128 + n / 64 % 64, 128 + n % 64]

/-- UTF-8 bytes of a string (Go `[]byte(s)`). -/
def utf8Encode (s : Str) : List Nat := s.flatMap utf8EncodeChar

/-- Uppercase hexadecimal digit for a value below 16. -/
def hexDigitUpper (n : Nat) : Char :=
  if n < 10 then Char.ofNat (48 + n) else Char.ofNat (55 + n)

/-- Lowercase hexadecimal digit for a value below 16. -/
def hexDigitLower (n : Nat) : Char :=
  if n < 10 then Char.ofNat (48 + n) else Char.ofNat (87 + n)

/-- Is the character left unescaped by Go `url.QueryEscape`. -/
def queryUnescapedChar (c : Char) : Bool :=
  ('A' ≤ c && c ≤ 'Z') || ('a' ≤ c && c ≤ 'z') || ('0' ≤ c && c ≤ '9') ||
    c = '-' || c = '_' || c = '.' || c = '~'

/-- Models Go `url.QueryEscape`: unreserved characters pass through, space
becomes `+`, every other byte becomes `%XX` with uppercase hex. -/
def queryEscape (s : Str) : Str :=
  s.flatMap fun c =>
    if queryUnescapedChar c then [c]
    else if c = ' ' then ['+']
    else (utf8EncodeChar c).flatMap fun b =>
      ['%', hexDigitUpper (b / 16), hexDigitUpper (b % 16)]

/-- Models Go `filepath.Ext`: the suffix starting at the final dot in the
final slash-separated element of the path; empty if there is no dot. -/
def extGo (path : Str) : Str :=
  let revSeg := path.reverse.takeWhile (fun c => c ≠ '/')
  let revBeforeDot := revSeg.takeWhile (fun c => c ≠ '.')
  if revBeforeDot.length = revSeg.length then []
  else (revBeforeDot ++ ['.']).reverse

/-- The configuration fields of main.go's `Config` that the modelled logic
reads (`CameraURL` and `CameraName`). -/
structure Config where
  cameraURL : Str
  cameraName : Str
deriving DecidableEq

/-- Models main.go's `DirectoryEntry`. -/
structure DirectoryEntry where
  name : Str
  path : Str
  modified : Str
  size : Str
  isDirectory : Bool
deriving DecidableEq

/-- Models main.go's `MediaItem`. -/
structure MediaItem where
  name : Str
  path : Str
  url : Str
  proxyURL : Str
  thumbnailURL : Str
  downloadFilename : Str
  date : Str
  type : Str
  trigger : Str
  timestamp : Str
  size : Str
  modified : Str
deriving DecidableEq

/-- Attempts to match the image-timestamp regular expression
`[AP](\d{2})(\d{2})(\d{2})(\d{2})(\d{2})(\d{2})` at the start of the string,
returning the twelve digit characters. -/
def matchImageAt (cs : Str) : Option Str :=
  match cs with
  | c :: rest =>
    let ds := rest.take 12
    if (c = 'A' ∨ c = 'P') ∧ ds.length = 12 ∧ allDigits ds = true then
      some ds
    else none
  | [] => none

/-- Leftmost match of the image-timestamp pattern (Go regexp's
leftmost-match semantics for `FindStringSubmatch`). -/
def findImageMatch : Str → Option Str
  | [] => none
  | c :: rest =>
    match matchImageAt (c :: rest) with
    | some ds => some ds
    | none => findImageMatch rest

/-- Attempts to match the video-timestamp regular expression
`[AP](\d{2})(\d{2})(\d{2})_(\d{2})(\d{2})(\d{2})_(\d{2})(\d{2})(\d{2})` at
the start of the string, returning the three six-digit groups. -/
def matchVideoAt (cs : Str) : Option (Str × Str × Str) :=
  match cs with
  | c :: rest =>
    let g1 := rest.take 6
    let u1 := rest.drop 6 |>.take 1
    let g2 := rest.drop 7 |>.take 6
    let u2 := rest.drop 13 |>.take 1
    let g3 := rest.drop 14 |>.take 6
    if (c = 'A' ∨ c = 'P') ∧ g1.length = 6 ∧ allDigits g1 = true ∧
        u1 = ['_'] ∧ g2.length = 6 ∧ allDigits g2 = true ∧
        u2 = ['_'] ∧ g3.length = 6 ∧ allDigits g3 = true then
      some (g1, g2, g3)
    else none
  | [] => none

/-- Leftmost match of the video-timestamp pattern. -/
def findVideoMatch : Str → Option (Str × Str × Str)
  | [] => none
  | c :: rest =>
    match matchVideoAt (c :: rest) with
    | some g => some g
    | none => findVideoMatch rest

/-- Renders the six digit characters `YYMMDDHHMMSS` as
`20YY-MM-DD HH:MM:SS` (the image branch of `parseTimestamp`). -/
def renderImageTimestamp (ds : Str) : Str :=
  strOf "20" ++ ds.take 2 ++ strOf "-" ++ (ds.drop 2).take 2 ++ strOf "-" ++
    (ds.drop 4).take 2 ++ strOf " " ++ (ds.drop 6).take 2 ++ strOf ":" ++
    (ds.drop 8).take 2 ++ strOf ":" ++ (ds.drop 10).take 2

/-- Renders a six-digit `HHMMSS` group as `HH:MM:SS`. -/
def renderTimeGroup (g : Str) : Str :=
  g.take 2 ++ strOf ":" ++ (g.drop 2).take 2 ++ strOf ":" ++ (g.drop 4).take 2

/-- Models `parseTimestamp` from main.go (main.go:1204-1226): pattern-match
fixed-width numeric groups in the filename; images yield a single instant,
videos a start/end pair; no match yields the empty string. -/
def parseTimestamp (name : Str) (mediaType : Str) : Str :=
  if mediaType = strOf "image" then
    match findImageMatch name with
    | some ds => renderImageTimestamp ds
    | none => []
  else
    match findVideoMatch name with
    | some (g1, g2, g3) =>
      strOf "20" ++ g1.take 2 ++ strOf "-" ++ (g1.drop 2).take 2 ++ strOf "-" ++
        (g1.drop 4).take 2 ++ strOf " " ++ renderTimeGroup g2 ++
        strOf " - " ++ renderTimeGroup g3
    | none => []

/-- Models `generateDownloadFilename` from main.go (main.go:1130-1167):
`<camera>_yyyy-MM-dd_HH-mm-ss.ext`, falling back to the original name when
the timestamp does not parse; videos always get the `.mp4` extension. -/
def generateDownloadFilename (cfg : Config) (timestamp originalName mediaType : Str) : Str :=
  let timeStr :=
    if containsGo timestamp (strOf " - ") then
      (splitGo (strOf " - ") timestamp).headD []
    else timestamp
  match parseGoTimeDT timeStr with
  | none => originalName
  | some t =>
    let ext0 := extGo originalName
    let ext :=
      if ext0 = [] then
        (if mediaType = strOf "video" then strOf ".mp4" else strOf ".jpg")
      else if mediaType = strOf "video" then strOf ".mp4"
      else ext0
    cfg.cameraName ++ strOf "_" ++ formatDownloadTime t ++ ext

/-- Models `parseMedia` from main.go (main.go:1169-1202): derives trigger
classification from the leading marker character, the display timestamp via
`parseTimestamp`, the conversion-proxy URL for videos, and the suggested
download filename. -/
def parseMedia (cfg : Config) (entry : DirectoryEntry) (datePath : Str) (mediaType : Str) : MediaItem :=
  let name := entry.name
  let trigger := if hasPrefixGo name (strOf "A") then strOf "alarm" else strOf "periodic"
  let timestamp := parseTimestamp name mediaType
  let proxyURL :=
    if mediaType = strOf "video" then
      strOf "/api/video/" ++ queryEscape entry.path ++ strOf ".mp4"
    else []
  let downloadFilename := generateDownloadFilename cfg timestamp name mediaType
  { name := name
    path := entry.path
    url := cfg.cameraURL ++ strOf "/" ++ entry.path
    proxyURL := proxyURL
    thumbnailURL := []
    downloadFilename := downloadFilename
    date := trimSuffixGo datePath (strOf "/")
    type := mediaType
    trigger := trigger
    timestamp := timestamp
    size := entry.size
    modified := entry.modified }

/-- The sample camera configuration used by the concrete spec examples. -/
def sampleConfig : Config := ⟨strOf "http://cam", strOf "camera"⟩

/-- The target URL built by `handleVideoProxy` (main.go:621):
`config.CameraURL + "/" + decodedPath`. -/
def videoProxyTargetURL (cameraURL decodedPath : Str) : Str :=
  cameraURL ++ strOf "/" ++ decodedPath

/-- The upstream-prefix validation of `handleVideoProxy` (main.go:624):
true exactly when the request is rejected with "Invalid URL". -/
def videoProxyRejected (cameraURL decodedPath : Str) : Bool :=
  !(hasPrefixGo (videoProxyTargetURL cameraURL decodedPath) cameraURL)

/-- Models `mustParseTime` from main.go: parse or fall back to the zero
`time.Time`. -/
def mustParseTimeUnix (s : Str) : Int :=
  (parseGoTime s).getD goZeroTimeUnix

/-- Instant of a media item's timestamp string, when it parses. -/
def parseOfItem (i : MediaItem) : Option Int := parseGoTime i.timestamp

/-- The instants of the items whose timestamps parse. -/
def parsedTimes (imgs : List MediaItem) : List Int := imgs.filterMap parseOfItem

/-- The parsed instants lying in the half-open window `[s, e)`. -/
def duringTimes (s e : Int) (imgs : List MediaItem) : List Int :=
  (parsedTimes imgs).filter (fun t => decide (s ≤ t) && decide (t < e))

/-- Inserts an image into the timestamp-keyed map `images` of
`matchVideoThumbnails` (main.go:883-888): a later image with the same
timestamp string overwrites the earlier one. -/
def upsertByTimestamp (acc : List MediaItem) (img : MediaItem) : List MediaItem :=
  if acc.any (fun j => j.timestamp = img.timestamp) then
    acc.map (fun j => if j.timestamp = img.timestamp then img else j)
  else acc ++ [img]

/-- The timestamp-keyed image index of `matchVideoThumbnails`.  Go map
iteration order is unspecified; the list order used here is one
representative, and every property proved about the scan below is
independent of that order. -/
def imageIndex (media : List MediaItem) : List MediaItem :=
  media.foldl
    (fun acc it => if it.type = strOf "image" then upsertByTimestamp acc it else acc) []

/-- The "during the video" accumulator update of the image scan
(main.go:935-940): an image inside `[s, e)` replaces the current candidate
when there is none or when it is strictly earlier. -/
def updateDuring (s e t : Int) (img : MediaItem) (dur : Option MediaItem) : Option MediaItem :=
  if (t = s ∨ s < t) ∧ t < e then
    match dur with
    | none => some img
    | some d => if t < mustParseTimeUnix d.timestamp then some img else dur
  else dur

/-- The "one second before" accumulator update of the image scan
(main.go:942-945). -/
def updateBefore (s t : Int) (img : MediaItem) (bef : Option MediaItem) : Option MediaItem :=
  if t = s - 1 then some img else bef

/-- The image scan of `matchVideoThumbnails` (main.go:928-946): images whose
timestamps fail to parse are skipped; the others update the "during" and
"before" candidates. -/
def scanThumb (s e : Int) : List MediaItem → Option MediaItem → Option MediaItem →
    Option MediaItem × Option MediaItem
  | [], dur, bef => (dur, bef)
  | img :: rest, dur, bef =>
    match parseGoTime img.timestamp with
    | none => scanThumb s e rest dur bef
    | some t => scanThumb s e rest (updateDuring s e t img dur) (updateBefore s t img bef)

/-- The candidate preference of `matchVideoThumbnails` (main.go:948-953):
prefer the "during" candidate, fall back to the "before" candidate. -/
def bestThumb (p : Option MediaItem × Option MediaItem) : Option MediaItem :=
  match p.1 with
  | some d => some d
  | none => p.2

/-- The video timestamp-range parser of `matchVideoThumbnails`
(main.go:896-921): split on " - ", parse the start with the full layout, and
parse the end either as a full timestamp or as a time-of-day prefixed with
the start's date (`startTime[:11]`). -/
def parseVideoRange (ts : Str) : Option (Int × Int) :=
  match splitGo (strOf " - ") ts with
  | [p0, p1] =>
    let startTime := trimSpaceGo p0
    let endTime := trimSpaceGo p1
    match parseGoTimeDT startTime with
    | none => none
    | some sdt =>
      let endParsed :=
        if containsGo endTime (strOf "-") then parseGoTimeDT endTime
        else parseGoTimeDT (startTime.take 11 ++ endTime)
      match endParsed with
      | none => none
      | some edt => some (sdt.toUnix, edt.toUnix)
  | _ => none

/-- Models `matchVideoThumbnails` from main.go (main.go:881-960), with the
in-place mutation of the media slice rendered as a map producing the updated
items: every video whose timestamp parses as a start/end pair is assigned the
proxy URL of its best-matching image, when one exists. -/
def matchVideoThumbnails (media : List MediaItem) : List MediaItem :=
  let imgs := imageIndex media
  media.map fun item =>
    if item.type = strOf "video" then
      match parseVideoRange item.timestamp with
      | none => item
      | some (s, e) =>
        match bestThumb (scanThumb s e imgs none none) with
        | none => item
        | some best =>
          { item with thumbnailURL := strOf "/api/proxy?url=" ++ queryEscape best.url }
    else item

/-- Minimum of an optional pair of instants. -/
def minOpt : Option Int → Option Int → Option Int
  | none, b => b
  | some a, none => some a
  | some a, some b => some (min a b)

/-- Minimum element of a list of instants ("the earliest candidate"). -/
def minListInt : List Int → Option Int
  | [] => none
  | t :: rest =>
    match minListInt rest with
    | none => some t
    | some m => some (min t m)

/-- Modelled from the spec's description of thumbnail matching: pick the
earliest image instant falling within `[s, e)` ("during"); if none exists,
pick the instant exactly one second before the start when an image carries
it ("before"); otherwise pick nothing. -/
def specThumbnailChoice (s e : Int) (times : List Int) : Option Int :=
  match minListInt (times.filter (fun t => decide (s ≤ t) && decide (t < e))) with
  | some m => some m
  | none => if (s - 1) ∈ times then some (s - 1) else none

/-- The video item of the spec's concrete thumbnail-matching example. -/
def c5Video : MediaItem :=
  ⟨strOf "P251121_212356_212410.265", [], strOf "http://cam/v.265", [], [], [], [],
    strOf "video", [], strOf "2025-11-21 21:23:56 - 21:24:10", [], []⟩

/-- Image timestamped one second before the example video starts. -/
def c5Img1 : MediaItem :=
  ⟨[], [], strOf "http://cam/i1.jpg", [], [], [], [],
    strOf "image", [], strOf "2025-11-21 21:23:55", [], []⟩

/-- Image timestamped during the example video. -/
def c5Img2 : MediaItem :=
  ⟨[], [], strOf "http://cam/i2.jpg", [], [], [], [],
    strOf "image", [], strOf "2025-11-21 21:24:00", [], []⟩

/-- Image timestamped after the example video ends. -/
def c5Img3 : MediaItem :=
  ⟨[], [], strOf "http://cam/i3.jpg", [], [], [], [],
    strOf "image", [], strOf "2025-11-21 21:24:12", [], []⟩

/-- 32-bit right rotation (machine integers are modelled as `Nat` reduced
mod 2^32). -/
def rotr32 (x n : Nat) : Nat := ((x >>> n) ||| (x <<< (32 - n))) % 4294967296

/-- The 64 SHA-256 round constants. -/
def sha256K : List Nat :=
  [
   1116352408, 1899447441, 3049323471, 3921009573, 961987163,
   1508970993, 2453635748, 2870763221, 3624381080, 310598401,
   607225278, 1426881987, 1925078388, 2162078206, 2614888103,
   3248222580, 3835390401, 4022224774, 264347078, 604807628,
   770255983, 1249150122, 1555081692, 1996064986, 2554220882,
   2821834349, 2952996808, 3210313671, 3336571891, 3584528711,
   113926993, 338241895, 666307205, 773529912, 1294757372,
   1396182291, 1695183700, 1986661051, 2177026350, 2456956037,
   2730485921, 2820302411, 3259730800, 3345764771, 3516065817,
   3600352804, 4094571909, 275423344, 430227734, 506948616,
   659060556, 883997877, 958139571, 1322822218, 1537002063,
   1747873779, 1955562222, 2024104815, 2227730452, 2361852424,
   2428436474, 2756734187, 3204031479, 3329325298]

/-- The SHA-256 initial hash state. -/
def sha256H0 : List Nat :=
  [
   1779033703, 3144134277, 1013904242, 2773480762,
   1359893119, 2600822924, 528734635, 1541459225]

/-- Big-endian 8-byte encoding of a 64-bit length. -/
def be64 (n : Nat) : List Nat :=
  [n >>> 56 % 256, n >>> 48 % 256, n >>> 40 % 256, n >>> 32 % 256,
   n >>> 24 % 256, n >>> 16 % 256, n >>> 8 % 256, n % 256]

/-- SHA-256 message padding: a 0x80 byte, zeros to 56 mod 64, and the
bit length. -/
def sha256Pad (msg : List Nat) : List Nat :=
  let L := msg.length
  let padZeros := (120 - (L + 1) % 64) % 64
  msg ++ [128] ++ List.replicate padZeros 0 ++ be64 (8 * L)

/-- Splits a padded message into 64-byte blocks. -/
def chunks64 (l : List Nat) : List (List Nat) :=
  if h : l = [] then [] else l.take 64 :: chunks64 (l.drop 64)
termination_by l.length
decreasing_by
  simp only [List.length_drop]
  have hne : l.length ≠ 0 := fun hl => h (List.eq_nil_of_length_eq_zero hl)
  omega

/-- Big-endian assembly of bytes into 32-bit words. -/
def toWords : List Nat → List Nat
  | b0 :: b1 :: b2 :: b3 :: rest =>
    (((b0 * 256 + b1) * 256 + b2) * 256 + b3) :: toWords rest
  | _ => []

/-- SHA-256 small sigma 0. -/
def smallSigma0 (x : Nat) : Nat := rotr32 x 7 ^^^ rotr32 x 18 ^^^ (x >>> 3)

/-- SHA-256 small sigma 1. -/
def smallSigma1 (x : Nat) : Nat := rotr32 x 17 ^^^ rotr32 x 19 ^^^ (x >>> 10)

/-- SHA-256 big sigma 0. -/
def bigSigma0 (x : Nat) : Nat := rotr32 x 2 ^^^ rotr32 x 13 ^^^ rotr32 x 22

/-- SHA-256 big sigma 1. -/
def bigSigma1 (x : Nat) : Nat := rotr32 x 6 ^^^ rotr32 x 11 ^^^ rotr32 x 25

/-- SHA-256 choice function (bitwise not is xor with 2^32 - 1). -/
def chFn (x y z : Nat) : Nat := (x &&& y) ^^^ ((x ^^^ 4294967295) &&& z)

/-- SHA-256 majority function. -/
def majFn (x y z : Nat) : Nat := (x &&& y) ^^^ (x &&& z) ^^^ (y &&& z)

/-- Extends the 16 block words to the 64-entry message schedule. -/
def sha256Schedule (w16 : List Nat) : List Nat :=
  (List.range 48).foldl
    (fun w _ =>
      let n := w.length
      w ++ [(smallSigma1 (w.getD (n - 2) 0) + w.getD (n - 7) 0 +
        smallSigma0 (w.getD (n - 15) 0) + w.getD (n - 16) 0) % 4294967296])
    w16

/-- The SHA-256 compression function applied to one 64-byte block. -/
def sha256Compress (hs : List Nat) (block : List Nat) : List Nat :=
  let w := sha256Schedule (toWords block)
  let final := (List.range 64).foldl
    (fun st i =>
      match st with
      | [a, b, c, d, e, f, g, hh] =>
        let t1 := (hh + bigSigma1 e + chFn e f g + sha256K.getD i 0 + w.getD i 0) % 4294967296
        let t2 := (bigSigma0 a + majFn a b c) % 4294967296
        [(t1 + t2) % 4294967296, a, b, c, (d + t1) % 4294967296, e, f, g]
      | other => other)
    hs
  match hs, final with
  | [h0, h1, h2, h3, h4, h5, h6, h7], [a, b, c, d, e, f, g, hh] =>
    [(h0 + a) % 4294967296, (h1 + b) % 4294967296, (h2 + c) % 4294967296,
     (h3 + d) % 4294967296, (h4 + e) % 4294967296, (h5 + f) % 4294967296,
     (h6 + g) % 4294967296, (h7 + hh) % 4294967296]
  | _, _ => hs

/-- SHA-256 digest (32 bytes) of a byte sequence, as computed by Go's
`sha256.Sum256` (validated against the standard test vectors). -/
def sha256Bytes (msg : List Nat) : List Nat :=
  ((chunks64 (sha256Pad msg)).foldl sha256Compress sha256H0).flatMap
    (fun v => [v >>> 24 % 256, v >>> 16 % 256, v >>> 8 % 256, v % 256])

/-- Models Go `hex.EncodeToString` (lowercase hex). -/
def hexEncode (bytes : List Nat) : Str :=
  bytes.flatMap (fun b => [hexDigitLower (b / 16), hexDigitLower (b % 16)])

/-- Models `MediaCache.getCacheKey` (main.go:65-68): the lowercase hex
SHA-256 digest of the URL's bytes, concatenated with the suffix. -/
def getCacheKey (url suffix : Str) : Str :=
  hexEncode (sha256Bytes (utf8Encode url)) ++ suffix

/-- Models `MediaCache.getCachePath` (main.go:71-73): `filepath.Join` of the
cache directory and the cache key (for the clean, non-empty directory names
the program configures, `Join` is directory ++ "/" ++ key). -/
def getCachePath (dir url suffix : Str) : Str :=
  dir ++ strOf "/" ++ getCacheKey url suffix

/-- Success/failure switches for the file-system steps of a cache `Get`:
temp-file creation, write, close, and rename. -/
structure FsFlags where
  createTempOk : Bool
  writeOk : Bool
  closeOk : Bool
  renameOk : Bool

/-- Result of one modelled cache call: the returned path (`none` on error),
the resulting file system (the list of paths that exist), and whether the
builder (`fetchFunc`) was invoked. -/
structure GetOutcome where
  result : Option Str
  fs : List Str
  invoked : Bool

/-- The body of `MediaCache.Get` (main.go:83-139) at a precomputed cache
path, as a sequential state-passing function: fast-path existence check, the
same re-check under the per-key lock, builder invocation, temp-file
create/write/close, atomic rename; every failure after temp creation removes
the temp file (the deferred `os.Remove`), and the rename atomically replaces
the temp path with the cache path. -/
def cacheGetAt (p t : Str) (fs : List Str) (fetchResult : Option (List Nat))
    (fl : FsFlags) : GetOutcome :=
  if p ∈ fs then ⟨some p, fs, false⟩
  else if p ∈ fs then ⟨some p, fs, false⟩
  else
    match fetchResult with
    | none => ⟨none, fs, true⟩
    | some _ =>
      if fl.createTempOk = false then ⟨none, fs, true⟩
      else if fl.writeOk = false then ⟨none, (t :: fs).erase t, true⟩
      else if fl.closeOk = false then ⟨none, (t :: fs).erase t, true⟩
      else if fl.renameOk = false then ⟨none, (t :: fs).erase t, true⟩
      else ⟨some p, p :: (t :: fs).erase t, true⟩

/-- Models `MediaCache.Get`: the cache path is computed from the URL and
suffix via `getCachePath` and the call proceeds at that path.  `t` is the
fresh temp-file name `os.CreateTemp` picks, `fetchResult` the builder's
outcome (`none` = builder error). -/
def cacheGet (dir : Str) (fs : List Str) (url suffix t : Str)
    (fetchResult : Option (List Nat)) (fl : FsFlags) : GetOutcome :=
  cacheGetAt (getCachePath dir url suffix) t fs fetchResult fl

/-- The body of `MediaCache.GetWithFile` (main.go:143-191) at a precomputed
cache path: here the temp file is created first and the builder writes
directly into it (`fetchOk` is the builder's outcome), then the atomic
rename; every failure after temp creation removes the temp file. -/
def cacheGetWithFileAt (p t : Str) (fs : List Str) (fetchOk : Bool)
    (fl : FsFlags) : GetOutcome :=
  if p ∈ fs then ⟨some p, fs, false⟩
  else if p ∈ fs then ⟨some p, fs, false⟩
  else if fl.createTempOk = false then ⟨none, fs, false⟩
  else if fetchOk = false then ⟨none, (t :: fs).erase t, true⟩
  else if fl.renameOk = false then ⟨none, (t :: fs).erase t, true⟩
  else ⟨some p, p :: (t :: fs).erase t, true⟩

/-- Models `MediaCache.GetWithFile`. -/
def cacheGetWithFile (dir : Str) (fs : List Str) (url suffix t : Str)
    (fetchOk : Bool) (fl : FsFlags) : GetOutcome :=
  cacheGetWithFileAt (getCachePath dir url suffix) t fs fetchOk fl

/-- Models `fetchDateMedia` (main.go:971-1017) against an abstract directory
lister `l` (the HTTP fetch + HTML parse of `fetchDirectory` is the external
`DirectoryLister` collaborator): a failure listing the date path itself is
returned as an error; a failure listing the `images000` or `record000`
subcollection is logged and that subcollection is skipped; recognized
entries are classified by extension and parsed; thumbnails are matched at
the end. -/
def fetchDateMedia (l : Str → Except Str (List DirectoryEntry)) (cfg : Config)
    (datePath : Str) : Except Str (List MediaItem) :=
  match l datePath with
  | Except.error e => Except.error e
  | Except.ok entries =>
    let media := entries.foldl
      (fun acc entry =>
        if entry.isDirectory = false then acc
        else
          let dirName := trimSuffixGo entry.name (strOf "/")
          if dirName = strOf "images000" then
            match l entry.path with
            | Except.error _ => acc
            | Except.ok images =>
              acc ++ ((images.filter
                  (fun img => hasSuffixGo img.name (strOf ".jpg"))).map
                (fun img => parseMedia cfg img datePath (strOf "image")))
          else if dirName = strOf "record000" then
            match l entry.path with
            | Except.error _ => acc
            | Except.ok videos =>
              acc ++ ((videos.filter
                  (fun vid => hasSuffixGo vid.name (strOf ".264") ||
                    hasSuffixGo vid.name (strOf ".265"))).map
                (fun vid => parseMedia cfg vid datePath (strOf "video")))
          else acc)
      []
    Except.ok (matchVideoThumbnails media)

/-- Models `fetchAllMedia` (main.go:794-822): a failure listing the root is
fatal (wrapped and returned); a failure fetching one date bucket is logged
and that bucket is skipped.  (The fire-and-forget `preCacheVideos` goroutine
does not affect the returned catalog.) -/
def fetchAllMedia (l : Str → Except Str (List DirectoryEntry)) (cfg : Config) :
    Except Str (List MediaItem) :=
  match l [] with
  | Except.error e => Except.error (strOf "failed to fetch root directory: " ++ e)
  | Except.ok dates =>
    Except.ok (dates.foldl
      (fun acc date =>
        if date.isDirectory = false then acc
        else
          match fetchDateMedia l cfg date.name with
          | Except.error _ => acc
          | Except.ok dm => acc ++ dm)
      [])

/-- Program position of one scheduler trigger in the model of
`BackgroundCacher.runCacheJob` (main.go:250-305): it fires (attempts
`TryLock`), is skipped when a run is in progress, or performs the run and
finishes. -/
inductive RunPC
  | fire
  | working
  | skipped
  | ranDone
deriving DecidableEq

/-- Global state of the background scheduler model: the `running` mutex of
`BackgroundCacher`, the positions of the triggers seen so far, and the
number of cache runs performed. -/
structure RunSys where
  running : Bool
  pcs : List RunPC
  runs : Nat
deriving DecidableEq

/-- Atomic steps of the scheduler model.  `TryLock` is atomic: a firing
trigger either observes `running = true` and is dropped (skipped, not
queued), or flips `running` and performs the run; finishing a run releases
the mutex via the deferred `Unlock`. -/
inductive RunStep : RunSys → RunSys → Prop
  | drop (s : RunSys) (i : Nat)
      (hpc : s.pcs.get? i = some RunPC.fire) (hrun : s.running = true) :
      RunStep s ⟨s.running, s.pcs.set i RunPC.skipped, s.runs⟩
  | begin (s : RunSys) (i : Nat)
      (hpc : s.pcs.get? i = some RunPC.fire) (hrun : s.running = false) :
      RunStep s ⟨true, s.pcs.set i RunPC.working, s.runs + 1⟩
  | finish (s : RunSys) (i : Nat)
      (hpc : s.pcs.get? i = some RunPC.working) :
      RunStep s ⟨false, s.pcs.set i RunPC.ranDone, s.runs⟩

/-- Initial scheduler state with `n` pending triggers. -/
def runInit (n : Nat) : RunSys := ⟨false, List.replicate n RunPC.fire, 0⟩

/-- Reachability for the scheduler model. -/
def RunReachable (n : Nat) (s : RunSys) : Prop :=
  Relation.ReflTransGen RunStep (runInit n) s

/-- Inductive invariant of the scheduler: at most one run is in progress,
`running` is set exactly while one is, and the run counter equals the number
of triggers that began a run (in progress or completed) — dropped triggers
contribute nothing. -/
def runInv (s : RunSys) : Prop :=
  s.pcs.count RunPC.working ≤ 1 ∧
  (s.running = true ↔ s.pcs.count RunPC.working = 1) ∧
  s.runs = s.pcs.count RunPC.working + s.pcs.count RunPC.ranDone

/-- Program position of one caller in the model of concurrent
`MediaCache.Get` calls for a single key (main.go:83-139): the fast-path
existence check, waiting for the per-key mutex, holding it (about to
re-check), running the builder, and returned. -/
inductive GetPC
  | start
  | waiting
  | locked
  | building
  | done
deriving DecidableEq

/-- Global state of the concurrent-cache model for one key: whether the
final cache file exists, who holds the per-key mutex, each caller's
position, and how many times the builder has been invoked. -/
structure GetSys where
  fileExists : Bool
  lockHolder : Option Nat
  pcs : List GetPC
  builds : Nat
deriving DecidableEq

/-- Atomic steps of the concurrent `Get` protocol, following main.go:
a caller at the fast path returns if the file exists, else proceeds to the
lock; acquiring the mutex succeeds only when free; under the lock the caller
re-checks and either returns (releasing the lock) or invokes the builder
(counted); a successful build writes the file via temp-and-rename — visible
atomically — and releases the lock.  Builder success is assumed (the claim's
hypothesis). -/
inductive GetStep : GetSys → GetSys → Prop
  | fastHit (s : GetSys) (i : Nat)
      (hpc : s.pcs.get? i = some GetPC.start) (hex : s.fileExists = true) :
      GetStep s ⟨s.fileExists, s.lockHolder, s.pcs.set i GetPC.done, s.builds⟩
  | fastMiss (s : GetSys) (i : Nat)
      (hpc : s.pcs.get? i = some GetPC.start) (hex : s.fileExists = false) :
      GetStep s ⟨s.fileExists, s.lockHolder, s.pcs.set i GetPC.waiting, s.builds⟩
  | acquire (s : GetSys) (i : Nat)
      (hpc : s.pcs.get? i = some GetPC.waiting) (hlock : s.lockHolder = none) :
      GetStep s ⟨s.fileExists, some i, s.pcs.set i GetPC.locked, s.builds⟩
  | recheckHit (s : GetSys) (i : Nat)
      (hpc : s.pcs.get? i = some GetPC.locked) (hex : s.fileExists = true) :
      GetStep s ⟨s.fileExists, none, s.pcs.set i GetPC.done, s.builds⟩
  | recheckMiss (s : GetSys) (i : Nat)
      (hpc : s.pcs.get? i = some GetPC.locked) (hex : s.fileExists = false) :
      GetStep s ⟨s.fileExists, s.lockHolder, s.pcs.set i GetPC.building, s.builds + 1⟩
  | finish (s : GetSys) (i : Nat)
      (hpc : s.pcs.get? i = some GetPC.building) :
      GetStep s ⟨true, none, s.pcs.set i GetPC.done, s.builds⟩

/-- Initial cold-cache state with `n` concurrent callers for the same key. -/
def getInit (n : Nat) : GetSys := ⟨false, none, List.replicate n GetPC.start, 0⟩

/-- Reachability for the concurrent-cache model. -/
def GetReachable (n : Nat) (s : GetSys) : Prop :=
  Relation.ReflTransGen GetStep (getInit n) s

/-- Inductive invariant of the concurrent `Get` protocol: the mutex is held
exactly by the callers in the locked or building positions (hence at most
one of them exists); while no build has happened the file does not exist and
nobody is building or done; the builder runs at most once; and after the one
build either the file exists or the builder's caller is still installing
it under the lock. -/
def getInv (s : GetSys) : Prop :=
  (∀ i, (s.pcs.get? i = some GetPC.locked ∨ s.pcs.get? i = some GetPC.building) →
    s.lockHolder = some i) ∧
  (∀ i, s.lockHolder = some i →
    (s.pcs.get? i = some GetPC.locked ∨ s.pcs.get? i = some GetPC.building)) ∧
  (s.builds = 0 → s.fileExists = false ∧ s.pcs.count GetPC.building = 0 ∧
    s.pcs.count GetPC.done = 0) ∧
  s.builds ≤ 1 ∧
  (s.builds = 1 → (s.fileExists = true ∨ s.pcs.count GetPC.building = 1))

theorem stripHXVSAux_sublist (data : List Nat) :
    ∀ skip, (stripHXVSAux data skip).Sublist data := by
  induction data with
  | nil => intro skip; simp [stripHXVSAux]
  | cons b rest ih =>
    intro skip
    cases skip with
    | succ n => exact List.Sublist.cons b (ih n)
    | zero =>
      rw [stripHXVSAux]
      split
      · exact List.Sublist.cons b (ih 15)
      · exact List.Sublist.cons₂ b (ih 0)

theorem stripHXVSAux_length (data : List Nat) :
    ∀ skip, (stripHXVSAux data skip).length + min skip data.length +
      16 * removedFramesAux data skip = data.length := by
  induction data with
  | nil => intro skip; simp [stripHXVSAux, removedFramesAux]
  | cons b rest ih =>
    intro skip
    cases skip with
    | succ n =>
      have h := ih n
      simp only [stripHXVSAux, removedFramesAux, List.length_cons]
      omega
    | zero =>
      rw [stripHXVSAux, removedFramesAux]
      split
      · next hc =>
        have h := ih 15
        have hlen : 15 ≤ rest.length := by
          have := hc.1
          simp only [List.length_cons] at this
          omega
        simp only [List.length_cons]
        omega
      · have h := ih 0
        simp only [List.length_cons, List.length_cons]
        omega

theorem stripHXVSAux_noMarker (data : List Nat)
    (h : ∀ i, isHXTag (data.drop i) = false) :
    stripHXVSAux data 0 = data := by
  induction data with
  | nil => rfl
  | cons b rest ih =>
    rw [stripHXVSAux]
    have hb : isHXTag (b :: rest) = false := h 0
    split
    · next hc => rw [hb] at hc; exact absurd hc.2 (by simp)
    · rw [ih]
      intro i
      exact h (i + 1)

theorem hasMarker_false_drop (data : List Nat) (h : hasMarker data = false) :
    ∀ i, isHXTag (data.drop i) = false := by
  intro i
  by_cases hi : i < data.length
  · simp only [hasMarker, List.any_eq_false] at h
    exact Bool.eq_false_iff.mpr (h i (List.mem_range.mpr hi))
  · rw [List.drop_eq_nil_of_le (Nat.le_of_not_lt hi)]
    rfl

/-- C4: `stripHXVSHeaders` removes exactly the frames its linear scan
recognizes and nothing else: the output is a sublist of the input (all other
bytes kept in their original relative order), the output length equals the
input length minus 16 times the number of recognized frames, and an input
containing no HXVS/HXVF markers is returned unchanged. -/
theorem c4_stripHXVSHeaders_correct :
    (∀ data : List Nat, (stripHXVSHeaders data).Sublist data) ∧
    (∀ data : List Nat,
      (stripHXVSHeaders data).length = data.length - 16 * removedFrames data) ∧
    (∀ data : List Nat, hasMarker data = false → stripHXVSHeaders data = data) := by
  refine ⟨fun data => stripHXVSAux_sublist data 0, fun data => ?_, fun data h => ?_⟩
  · have h := stripHXVSAux_length data 0
    simp only [Nat.zero_min, Nat.add_zero] at h
    unfold stripHXVSHeaders removedFrames
    omega
  · exact stripHXVSAux_noMarker data (hasMarker_false_drop data h)

/-- Witness for C4: a concrete marker-free input is returned unchanged, and a
concrete input consisting of one HXVS header followed by payload bytes loses
exactly 16 bytes. -/
theorem c4_stripHXVSHeaders_witness :
    hasMarker [1, 2, 3, 4, 5] = false ∧
    stripHXVSHeaders [1, 2, 3, 4, 5] = [1, 2, 3, 4, 5] ∧
    stripHXVSHeaders
      [72, 88, 86, 83, 0, 0, 0, 0, 0, 0, 0, 0, 0, 0, 0, 0, 9, 7] = [9, 7] :=
  ⟨by decide,
   c4_stripHXVSHeaders_correct.2.2 [1, 2, 3, 4, 5] (by decide),
   by decide⟩

/-- C7: frame-rate determination maps probe output "30000/1001" to 30
(rounding 29.97 to the nearest integer) and "25" to 25, and for unparsable
probe output (such as ffprobe's "N/A") or a probe result of zero the
conversion pipeline falls back to the default frame rate 20. -/
theorem c7_detectFPS_correct :
    detectFPSParse (strOf "30000/1001") = 30 ∧
    detectFPSParse (strOf "25") = 25 ∧
    detectFPSParse (strOf "N/A") = 0 ∧
    fpsForConvert (detectFPSParse (strOf "N/A")) = 20 ∧
    fpsForConvert 0 = 20 := by
  refine ⟨?_, ?_, ?_, ?_, rfl⟩ <;> decide

/-- C6: classification and timestamp derivation match the spec's examples:
`A251121212356.jpg` as an image yields type "image", trigger "alarm",
timestamp "2025-11-21 21:23:56"; `P251121_212356_212410.265` as a video
yields type "video", trigger "periodic", timestamp
"2025-11-21 21:23:56 - 21:24:10".  (The `.jpg` / `.265` suffix checks are the
classification criteria applied by `fetchDateMedia`.) -/
theorem c6_parseMedia_examples :
    (hasSuffixGo (strOf "A251121212356.jpg") (strOf ".jpg") = true ∧
      (parseMedia sampleConfig
        ⟨strOf "A251121212356.jpg", strOf "20251121/images000/A251121212356.jpg",
          [], [], false⟩ (strOf "20251121/") (strOf "image")).type = strOf "image" ∧
      (parseMedia sampleConfig
        ⟨strOf "A251121212356.jpg", strOf "20251121/images000/A251121212356.jpg",
          [], [], false⟩ (strOf "20251121/") (strOf "image")).trigger = strOf "alarm" ∧
      (parseMedia sampleConfig
        ⟨strOf "A251121212356.jpg", strOf "20251121/images000/A251121212356.jpg",
          [], [], false⟩ (strOf "20251121/") (strOf "image")).timestamp =
        strOf "2025-11-21 21:23:56") ∧
    (hasSuffixGo (strOf "P251121_212356_212410.265") (strOf ".265") = true ∧
      (parseMedia sampleConfig
        ⟨strOf "P251121_212356_212410.265", strOf "20251121/record000/P251121_212356_212410.265",
          [], [], false⟩ (strOf "20251121/") (strOf "video")).type = strOf "video" ∧
      (parseMedia sampleConfig
        ⟨strOf "P251121_212356_212410.265", strOf "20251121/record000/P251121_212356_212410.265",
          [], [], false⟩ (strOf "20251121/") (strOf "video")).trigger = strOf "periodic" ∧
      (parseMedia sampleConfig
        ⟨strOf "P251121_212356_212410.265", strOf "20251121/record000/P251121_212356_212410.265",
          [], [], false⟩ (strOf "20251121/") (strOf "video")).timestamp =
        strOf "2025-11-21 21:23:56 - 21:24:10") := by
  constructor
  · refine ⟨by decide, by decide, by decide, by decide⟩
  · refine ⟨by decide, by decide, by decide, by decide⟩

/-- C10: the video-proxy target URL is the configured camera base URL plus
"/" plus the decoded path, so it always has the camera base URL as a prefix;
the "Invalid URL" rejection branch that follows is unreachable for every
camera URL and every decoded path. -/
theorem c10_videoProxy_validation_unreachable :
    ∀ cameraURL decodedPath : Str,
      videoProxyRejected cameraURL decodedPath = false := by
  intro cameraURL decodedPath
  unfold videoProxyRejected hasPrefixGo videoProxyTargetURL
  rw [Bool.not_eq_false', List.isPrefixOf_iff_prefix, List.append_assoc]
  exact List.prefix_append cameraURL _

theorem minOpt_none_right (a : Option Int) : minOpt a none = a := by
  cases a <;> rfl

theorem minOpt_assoc (a b c : Option Int) :
    minOpt (minOpt a b) c = minOpt a (minOpt b c) := by
  cases a <;> cases b <;> cases c <;> simp [minOpt, min_assoc]

theorem minListInt_cons (t : Int) (l : List Int) :
    minListInt (t :: l) = minOpt (some t) (minListInt l) := by
  rw [minListInt]
  cases minListInt l <;> rfl

theorem updateDuring_bind (s e t : Int) (img : MediaItem) (dur : Option MediaItem)
    (himg : parseOfItem img = some t)
    (hin : s ≤ t ∧ t < e)
    (hdur : ∀ d, dur = some d → ∃ u, parseOfItem d = some u ∧ s ≤ u ∧ u < e) :
    (updateDuring s e t img dur).bind parseOfItem =
      minOpt (dur.bind parseOfItem) (some t) := by
  unfold updateDuring
  rw [if_pos (by omega : (t = s ∨ s < t) ∧ t < e)]
  cases dur with
  | none => simp [Option.bind, himg, minOpt]
  | some d =>
    obtain ⟨u, hu, _, _⟩ := hdur d rfl
    have hm : mustParseTimeUnix d.timestamp = u := by
      unfold mustParseTimeUnix
      unfold parseOfItem at hu
      rw [hu]; rfl
    dsimp only
    rw [hm]
    by_cases hlt : t < u
    · rw [if_pos hlt]
      simp [Option.bind, himg, hu, minOpt, min_eq_right (le_of_lt hlt), min_comm]
    · rw [if_neg hlt]
      simp [Option.bind, hu, minOpt, min_eq_left (le_of_not_lt hlt), min_comm]

theorem updateDuring_inv (s e t : Int) (img : MediaItem) (dur : Option MediaItem)
    (himg : parseOfItem img = some t)
    (hdur : ∀ d, dur = some d → ∃ u, parseOfItem d = some u ∧ s ≤ u ∧ u < e) :
    ∀ d, updateDuring s e t img dur = some d →
      ∃ u, parseOfItem d = some u ∧ s ≤ u ∧ u < e := by
  intro d hd
  unfold updateDuring at hd
  by_cases hin : (t = s ∨ s < t) ∧ t < e
  · rw [if_pos hin] at hd
    cases dur with
    | none =>
      cases hd
      exact ⟨t, himg, by omega, hin.2⟩
    | some d0 =>
      dsimp only at hd
      by_cases hlt : t < mustParseTimeUnix d0.timestamp
      · rw [if_pos hlt] at hd
        cases hd
        exact ⟨t, himg, by omega, hin.2⟩
      · rw [if_neg hlt] at hd
        exact hdur d hd
  · rw [if_neg hin] at hd
    exact hdur d hd

theorem updateDuring_skip (s e t : Int) (img : MediaItem) (dur : Option MediaItem)
    (hout : ¬(s ≤ t ∧ t < e)) :
    updateDuring s e t img dur = dur := by
  unfold updateDuring
  rw [if_neg (by omega : ¬((t = s ∨ s < t) ∧ t < e))]

/-- The image scan computes, at the level of parsed instants, exactly the
earliest "during" candidate and the "one second before" candidate. -/
theorem scanThumb_characterization (s e : Int) :
    ∀ (imgs : List MediaItem) (dur bef : Option MediaItem),
    (∀ d, dur = some d → ∃ u, parseOfItem d = some u ∧ s ≤ u ∧ u < e) →
    (∀ b, bef = some b → parseOfItem b = some (s - 1)) →
    ((scanThumb s e imgs dur bef).1.bind parseOfItem =
        minOpt (dur.bind parseOfItem) (minListInt (duringTimes s e imgs))) ∧
    (∀ d, (scanThumb s e imgs dur bef).1 = some d →
        ∃ u, parseOfItem d = some u ∧ s ≤ u ∧ u < e) ∧
    ((scanThumb s e imgs dur bef).2.bind parseOfItem =
        if (s - 1) ∈ parsedTimes imgs then some (s - 1) else bef.bind parseOfItem) ∧
    (∀ b, (scanThumb s e imgs dur bef).2 = some b → parseOfItem b = some (s - 1)) := by
  intro imgs
  induction imgs with
  | nil =>
    intro dur bef hdur hbef
    refine ⟨?_, hdur, ?_, hbef⟩
    · simp [scanThumb, duringTimes, parsedTimes, minListInt, minOpt_none_right]
    · simp [scanThumb, parsedTimes]
  | cons img rest ih =>
    intro dur bef hdur hbef
    rw [scanThumb]
    cases hp : parseGoTime img.timestamp with
    | none =>
      have hpi : parseOfItem img = none := hp
      have h := ih dur bef hdur hbef
      have hts : parsedTimes (img :: rest) = parsedTimes rest := by
        simp [parsedTimes, List.filterMap_cons, hpi]
      have hdts : duringTimes s e (img :: rest) = duringTimes s e rest := by
        simp [duringTimes, hts]
      rw [hts, hdts]
      exact h
    | some t =>
      dsimp only
      have hpi : parseOfItem img = some t := hp
      have hts : parsedTimes (img :: rest) = t :: parsedTimes rest := by
        simp [parsedTimes, List.filterMap_cons, hpi]
      by_cases hin : s ≤ t ∧ t < e
      · have hdts : duringTimes s e (img :: rest) = t :: duringTimes s e rest := by
          simp [duringTimes, hts, List.filter_cons, hin.1, hin.2]
        have hdur2 := updateDuring_inv s e t img dur hpi hdur
        have hbef2 : ∀ b, updateBefore s t img bef = some b →
            parseOfItem b = some (s - 1) := by
          intro b hb
          unfold updateBefore at hb
          by_cases hbt : t = s - 1
          · rw [if_pos hbt] at hb
            cases hb
            rw [hpi, hbt]
          · rw [if_neg hbt] at hb
            exact hbef b hb
        obtain ⟨h1, h2, h3, h4⟩ := ih (updateDuring s e t img dur) (updateBefore s t img bef) hdur2 hbef2
        refine ⟨?_, h2, ?_, h4⟩
        · rw [h1, updateDuring_bind s e t img dur hpi hin hdur, hdts,
            minListInt_cons, minOpt_assoc]
        · rw [h3, hts]
          by_cases hbt : t = s - 1
          · have hmem : (s - 1) ∈ t :: parsedTimes rest := by
              rw [hbt]; exact List.mem_cons_self _ _
            rw [if_pos hmem]
            by_cases hmem2 : (s - 1) ∈ parsedTimes rest
            · rw [if_pos hmem2]
            · rw [if_neg hmem2]
              unfold updateBefore
              rw [if_pos hbt]
              simp [Option.bind, hpi, hbt]
          · have hupd : updateBefore s t img bef = bef := by
              unfold updateBefore
              rw [if_neg hbt]
            rw [hupd]
            have hmemiff : ((s - 1) ∈ t :: parsedTimes rest) ↔ ((s - 1) ∈ parsedTimes rest) := by
              constructor
              · intro hm
                rcases List.mem_cons.mp hm with h | h
                · exact absurd h.symm hbt
                · exact h
              · exact fun h => List.mem_cons_of_mem _ h
            by_cases hmem2 : (s - 1) ∈ parsedTimes rest
            · rw [if_pos hmem2, if_pos (hmemiff.mpr hmem2)]
            · rw [if_neg hmem2, if_neg (fun h => hmem2 (hmemiff.mp h))]
      · have hdts : duringTimes s e (img :: rest) = duringTimes s e rest := by
          have : ¬(decide (s ≤ t) && decide (t < e)) = true := by
            simp only [Bool.and_eq_true, decide_eq_true_eq]
            exact hin
          simp [duringTimes, hts, List.filter_cons, this]
        rw [updateDuring_skip s e t img dur hin]
        have hbef2 : ∀ b, updateBefore s t img bef = some b →
            parseOfItem b = some (s - 1) := by
          intro b hb
          unfold updateBefore at hb
          by_cases hbt : t = s - 1
          · rw [if_pos hbt] at hb
            cases hb
            rw [hpi, hbt]
          · rw [if_neg hbt] at hb
            exact hbef b hb
        obtain ⟨h1, h2, h3, h4⟩ := ih dur (updateBefore s t img bef) hdur hbef2
        refine ⟨by rw [h1, hdts], h2, ?_, h4⟩
        rw [h3, hts]
        by_cases hbt : t = s - 1
        · have hmem : (s - 1) ∈ t :: parsedTimes rest := by
            rw [hbt]; exact List.mem_cons_self _ _
          rw [if_pos hmem]
          by_cases hmem2 : (s - 1) ∈ parsedTimes rest
          · rw [if_pos hmem2]
          · rw [if_neg hmem2]
            unfold updateBefore
            rw [if_pos hbt]
            simp [Option.bind, hpi, hbt]
        · have hupd : updateBefore s t img bef = bef := by
            unfold updateBefore
            rw [if_neg hbt]
          rw [hupd]
          have hmemiff : ((s - 1) ∈ t :: parsedTimes rest) ↔ ((s - 1) ∈ parsedTimes rest) := by
            constructor
            · intro hm
              rcases List.mem_cons.mp hm with h | h
              · exact absurd h.symm hbt
              · exact h
            · exact fun h => List.mem_cons_of_mem _ h
          by_cases hmem2 : (s - 1) ∈ parsedTimes rest
          · rw [if_pos hmem2, if_pos (hmemiff.mpr hmem2)]
          · rw [if_neg hmem2, if_neg (fun h => hmem2 (hmemiff.mp h))]

theorem minOpt_none_left (b : Option Int) : minOpt none b = b := rfl

theorem specThumbnailChoice_via (s e : Int) (imgs : List MediaItem) :
    specThumbnailChoice s e (parsedTimes imgs) =
      (match minListInt (duringTimes s e imgs) with
        | some m => some m
        | none => if (s - 1) ∈ parsedTimes imgs then some (s - 1) else none) := rfl

/-- C5: the thumbnail scan picks, for a video windowed `[start, end)`, the
image with the earliest parsed instant inside the window; failing that, the
image whose instant is exactly one second before the start; failing that,
nothing — stated as equality with the spec-side chooser at the level of
parsed instants (the timestamp strings in a build are canonical, so the
instant determines the image).  The concrete conjunct is the spec's example:
for a video windowed 21:23:56–21:24:10 and images at 21:23:55, 21:24:00 and
21:24:12, `matchVideoThumbnails` assigns the proxy URL of the 21:24:00
image. -/
theorem c5_thumbnail_matching :
    (∀ (s e : Int) (imgs : List MediaItem),
      (bestThumb (scanThumb s e imgs none none)).bind parseOfItem =
        specThumbnailChoice s e (parsedTimes imgs)) ∧
    (matchVideoThumbnails [c5Video, c5Img1, c5Img2, c5Img3]).map
        MediaItem.thumbnailURL =
      [strOf "/api/proxy?url=" ++ queryEscape (strOf "http://cam/i2.jpg"),
        [], [], []] := by
  constructor
  · intro s e imgs
    obtain ⟨h1, h2, h3, h4⟩ := scanThumb_characterization s e imgs none none
      (fun d hd => Option.noConfusion hd) (fun b hb => Option.noConfusion hb)
    rw [specThumbnailChoice_via]
    cases hscan : (scanThumb s e imgs none none).1 with
    | some d =>
      rw [hscan] at h1
      obtain ⟨u, hu, _, _⟩ := h2 d hscan
      rw [Option.some_bind, hu, Option.none_bind, minOpt_none_left] at h1
      rw [← h1]
      unfold bestThumb
      rw [hscan]
      exact hu
    | none =>
      rw [hscan, Option.none_bind, minOpt_none_left] at h1
      rw [← h1]
      unfold bestThumb
      rw [hscan]
      dsimp only
      rw [h3, Option.none_bind]
  · decide

theorem cacheGetAt_mem (p t : Str) (fs : List Str) (fr : Option (List Nat))
    (fl : FsFlags) (hp : p ∈ fs) :
    cacheGetAt p t fs fr fl = ⟨some p, fs, false⟩ := by
  unfold cacheGetAt
  rw [if_pos hp]

theorem cacheGetWithFileAt_mem (p t : Str) (fs : List Str) (ok : Bool)
    (fl : FsFlags) (hp : p ∈ fs) :
    cacheGetWithFileAt p t fs ok fl = ⟨some p, fs, false⟩ := by
  unfold cacheGetWithFileAt
  rw [if_pos hp]

theorem cacheGetAt_none (p t : Str) (fs : List Str) (fr : Option (List Nat))
    (fl : FsFlags) (h : (cacheGetAt p t fs fr fl).result = none) :
    p ∉ fs ∧ (cacheGetAt p t fs fr fl).fs = fs := by
  unfold cacheGetAt at h ⊢
  by_cases hp : p ∈ fs
  · rw [if_pos hp] at h
    exact absurd h (by simp)
  · rw [if_neg hp, if_neg hp] at h ⊢
    refine ⟨hp, ?_⟩
    cases fr with
    | none => rfl
    | some d =>
      have he : (t :: fs).erase t = fs := List.erase_cons_head t fs
      by_cases h1 : fl.createTempOk = false
      · rw [if_pos h1]
      · rw [if_neg h1] at h ⊢
        by_cases h2 : fl.writeOk = false
        · rw [if_pos h2]; exact he
        · rw [if_neg h2] at h ⊢
          by_cases h3 : fl.closeOk = false
          · rw [if_pos h3]; exact he
          · rw [if_neg h3] at h ⊢
            by_cases h4 : fl.renameOk = false
            · rw [if_pos h4]; exact he
            · rw [if_neg h4] at h
              exact absurd h (by simp)

theorem cacheGetWithFileAt_none (p t : Str) (fs : List Str) (ok : Bool)
    (fl : FsFlags) (h : (cacheGetWithFileAt p t fs ok fl).result = none) :
    p ∉ fs ∧ (cacheGetWithFileAt p t fs ok fl).fs = fs := by
  unfold cacheGetWithFileAt at h ⊢
  by_cases hp : p ∈ fs
  · rw [if_pos hp] at h
    exact absurd h (by simp)
  · rw [if_neg hp, if_neg hp] at h ⊢
    refine ⟨hp, ?_⟩
    have he : (t :: fs).erase t = fs := List.erase_cons_head t fs
    by_cases h1 : fl.createTempOk = false
    · rw [if_pos h1]
    · rw [if_neg h1] at h ⊢
      by_cases h2 : ok = false
      · rw [if_pos h2]; exact he
      · rw [if_neg h2] at h ⊢
        by_cases h3 : fl.renameOk = false
        · rw [if_pos h3]; exact he
        · rw [if_neg h3] at h
          exact absurd h (by simp)

theorem cacheGetAt_invoked (p t : Str) (fs : List Str) (fr : Option (List Nat))
    (fl : FsFlags) (hp : p ∉ fs) :
    (cacheGetAt p t fs fr fl).invoked = true := by
  unfold cacheGetAt
  rw [if_neg hp, if_neg hp]
  cases fr with
  | none => rfl
  | some d =>
    by_cases h1 : fl.createTempOk = false
    · rw [if_pos h1]
    · rw [if_neg h1]
      by_cases h2 : fl.writeOk = false
      · rw [if_pos h2]
      · rw [if_neg h2]
        by_cases h3 : fl.closeOk = false
        · rw [if_pos h3]
        · rw [if_neg h3]
          by_cases h4 : fl.renameOk = false
          · rw [if_pos h4]
          · rw [if_neg h4]

theorem cacheGetWithFileAt_secondSafe (p t : Str) (fs : List Str) (ok : Bool)
    (fl : FsFlags) (hp : p ∉ fs) :
    (cacheGetWithFileAt p t fs ok fl).invoked = true ∨
      (cacheGetWithFileAt p t fs ok fl).result = none := by
  unfold cacheGetWithFileAt
  rw [if_neg hp, if_neg hp]
  by_cases h1 : fl.createTempOk = false
  · rw [if_pos h1]; exact Or.inr rfl
  · rw [if_neg h1]
    by_cases h2 : ok = false
    · rw [if_pos h2]; exact Or.inl rfl
    · rw [if_neg h2]
      by_cases h3 : fl.renameOk = false
      · rw [if_pos h3]; exact Or.inl rfl
      · rw [if_neg h3]; exact Or.inl rfl

theorem cacheGetAt_some (p t : Str) (fs : List Str) (fr : Option (List Nat))
    (fl : FsFlags) (q : Str) (h : (cacheGetAt p t fs fr fl).result = some q) :
    q = p ∧ p ∈ (cacheGetAt p t fs fr fl).fs := by
  unfold cacheGetAt at h ⊢
  by_cases hp : p ∈ fs
  · rw [if_pos hp] at h ⊢
    exact ⟨(Option.some_inj.mp h).symm, hp⟩
  · rw [if_neg hp, if_neg hp] at h ⊢
    cases fr with
    | none => exact absurd h (by simp)
    | some d =>
      by_cases h1 : fl.createTempOk = false
      · rw [if_pos h1] at h
        exact absurd h (by simp)
      · rw [if_neg h1] at h ⊢
        by_cases h2 : fl.writeOk = false
        · rw [if_pos h2] at h
          exact absurd h (by simp)
        · rw [if_neg h2] at h ⊢
          by_cases h3 : fl.closeOk = false
          · rw [if_pos h3] at h
            exact absurd h (by simp)
          · rw [if_neg h3] at h ⊢
            by_cases h4 : fl.renameOk = false
            · rw [if_pos h4] at h
              exact absurd h (by simp)
            · rw [if_neg h4] at h ⊢
              exact ⟨(Option.some_inj.mp h).symm, List.mem_cons_self p _⟩

theorem cacheGetWithFileAt_some (p t : Str) (fs : List Str) (ok : Bool)
    (fl : FsFlags) (q : Str) (h : (cacheGetWithFileAt p t fs ok fl).result = some q) :
    q = p ∧ p ∈ (cacheGetWithFileAt p t fs ok fl).fs := by
  unfold cacheGetWithFileAt at h ⊢
  by_cases hp : p ∈ fs
  · rw [if_pos hp] at h ⊢
    exact ⟨(Option.some_inj.mp h).symm, hp⟩
  · rw [if_neg hp, if_neg hp] at h ⊢
    by_cases h1 : fl.createTempOk = false
    · rw [if_pos h1] at h
      exact absurd h (by simp)
    · rw [if_neg h1] at h ⊢
      by_cases h2 : ok = false
      · rw [if_pos h2] at h
        exact absurd h (by simp)
      · rw [if_neg h2] at h ⊢
        by_cases h3 : fl.renameOk = false
        · rw [if_pos h3] at h
          exact absurd h (by simp)
        · rw [if_neg h3] at h ⊢
          exact ⟨(Option.some_inj.mp h).symm, List.mem_cons_self p _⟩

/-- C2: if a `Get` or `GetWithFile` call fails (builder error or any
temp-file write, close, or rename failure), no file exists at the final
cache path afterwards — the file system is exactly as before the call, so in
particular the cache path is absent — and a subsequent call for the same key
re-invokes the builder rather than returning success from a stale or partial
artifact (a subsequent `Get` always invokes it; a subsequent `GetWithFile`
either invokes it or fails before reaching it, never succeeding without
it). -/
theorem c2_cache_failure_leaves_no_artifact :
    (∀ (dir : Str) (fs : List Str) (url suffix t : Str)
        (fr : Option (List Nat)) (fl : FsFlags),
      (cacheGet dir fs url suffix t fr fl).result = none →
        getCachePath dir url suffix ∉ (cacheGet dir fs url suffix t fr fl).fs ∧
        ∀ (t2 : Str) (fr2 : Option (List Nat)) (fl2 : FsFlags),
          (cacheGet dir (cacheGet dir fs url suffix t fr fl).fs
            url suffix t2 fr2 fl2).invoked = true) ∧
    (∀ (dir : Str) (fs : List Str) (url suffix t : Str) (ok : Bool) (fl : FsFlags),
      (cacheGetWithFile dir fs url suffix t ok fl).result = none →
        getCachePath dir url suffix ∉ (cacheGetWithFile dir fs url suffix t ok fl).fs ∧
        ∀ (t2 : Str) (ok2 : Bool) (fl2 : FsFlags),
          (cacheGetWithFile dir (cacheGetWithFile dir fs url suffix t ok fl).fs
              url suffix t2 ok2 fl2).invoked = true ∨
            (cacheGetWithFile dir (cacheGetWithFile dir fs url suffix t ok fl).fs
              url suffix t2 ok2 fl2).result = none) := by
  constructor
  · intro dir fs url suffix t fr fl h
    obtain ⟨hp, hfs⟩ := cacheGetAt_none _ t fs fr fl h
    rw [show (cacheGet dir fs url suffix t fr fl).fs =
      (cacheGetAt (getCachePath dir url suffix) t fs fr fl).fs from rfl, hfs]
    exact ⟨hp, fun t2 fr2 fl2 => cacheGetAt_invoked _ t2 fs fr2 fl2 hp⟩
  · intro dir fs url suffix t ok fl h
    obtain ⟨hp, hfs⟩ := cacheGetWithFileAt_none _ t fs ok fl h
    rw [show (cacheGetWithFile dir fs url suffix t ok fl).fs =
      (cacheGetWithFileAt (getCachePath dir url suffix) t fs ok fl).fs from rfl, hfs]
    exact ⟨hp, fun t2 ok2 fl2 => cacheGetWithFileAt_secondSafe _ t2 fs ok2 fl2 hp⟩

/-- Witness for C2: on an empty cache, a `Get` whose builder fails leaves the
cache path absent and a retry invokes the builder; a `GetWithFile` whose
builder fails behaves the same. -/
theorem c2_cache_failure_witness :
    (getCachePath (strOf "c") (strOf "u") (strOf ".x") ∉
      (cacheGet (strOf "c") [] (strOf "u") (strOf ".x") (strOf "tmp1") none
        ⟨true, true, true, true⟩).fs ∧
      (cacheGet (strOf "c")
        (cacheGet (strOf "c") [] (strOf "u") (strOf ".x") (strOf "tmp1") none
          ⟨true, true, true, true⟩).fs
        (strOf "u") (strOf ".x") (strOf "tmp2") none ⟨true, true, true, true⟩).invoked = true) ∧
    (getCachePath (strOf "c") (strOf "u") (strOf ".x") ∉
      (cacheGetWithFile (strOf "c") [] (strOf "u") (strOf ".x") (strOf "tmp1") false
        ⟨true, true, true, true⟩).fs) := by
  constructor
  · have h := c2_cache_failure_leaves_no_artifact.1 (strOf "c") [] (strOf "u")
      (strOf ".x") (strOf "tmp1") none ⟨true, true, true, true⟩ rfl
    exact ⟨h.1, h.2 (strOf "tmp2") none ⟨true, true, true, true⟩⟩
  · have h := c2_cache_failure_leaves_no_artifact.2 (strOf "c") [] (strOf "u")
      (strOf ".x") (strOf "tmp1") false ⟨true, true, true, true⟩ rfl
    exact h.1

/-- C3: once a `Get` (or `GetWithFile`) call for a (url, suffix) pair has
succeeded, the returned path is the deterministic `getCachePath` of that
pair, the file exists at that path, and every later `Get` or `GetWithFile`
call for the same pair returns the same path on the fast path — file system
unchanged, builder not invoked. -/
theorem c3_cache_repeat_returns_same_path :
    (∀ (dir : Str) (fs : List Str) (url suffix t : Str)
        (fr : Option (List Nat)) (fl : FsFlags) (q : Str),
      (cacheGet dir fs url suffix t fr fl).result = some q →
        q = getCachePath dir url suffix ∧
        getCachePath dir url suffix ∈ (cacheGet dir fs url suffix t fr fl).fs ∧
        (∀ (t2 : Str) (fr2 : Option (List Nat)) (fl2 : FsFlags),
          cacheGet dir (cacheGet dir fs url suffix t fr fl).fs url suffix t2 fr2 fl2 =
            ⟨some (getCachePath dir url suffix),
              (cacheGet dir fs url suffix t fr fl).fs, false⟩) ∧
        (∀ (t2 : Str) (ok2 : Bool) (fl2 : FsFlags),
          cacheGetWithFile dir (cacheGet dir fs url suffix t fr fl).fs url suffix t2 ok2 fl2 =
            ⟨some (getCachePath dir url suffix),
              (cacheGet dir fs url suffix t fr fl).fs, false⟩)) ∧
    (∀ (dir : Str) (fs : List Str) (url suffix t : Str) (ok : Bool)
        (fl : FsFlags) (q : Str),
      (cacheGetWithFile dir fs url suffix t ok fl).result = some q →
        q = getCachePath dir url suffix ∧
        getCachePath dir url suffix ∈ (cacheGetWithFile dir fs url suffix t ok fl).fs ∧
        (∀ (t2 : Str) (fr2 : Option (List Nat)) (fl2 : FsFlags),
          cacheGet dir (cacheGetWithFile dir fs url suffix t ok fl).fs url suffix t2 fr2 fl2 =
            ⟨some (getCachePath dir url suffix),
              (cacheGetWithFile dir fs url suffix t ok fl).fs, false⟩)) := by
  constructor
  · intro dir fs url suffix t fr fl q h
    obtain ⟨hq, hmem⟩ := cacheGetAt_some _ t fs fr fl q h
    exact ⟨hq, hmem,
      fun t2 fr2 fl2 => cacheGetAt_mem _ t2 _ fr2 fl2 hmem,
      fun t2 ok2 fl2 => cacheGetWithFileAt_mem _ t2 _ ok2 fl2 hmem⟩
  · intro dir fs url suffix t ok fl q h
    obtain ⟨hq, hmem⟩ := cacheGetWithFileAt_some _ t fs ok fl q h
    exact ⟨hq, hmem, fun t2 fr2 fl2 => cacheGetAt_mem _ t2 _ fr2 fl2 hmem⟩

/-- Witness for C3: on an empty cache, a `Get` whose builder succeeds returns
the key's cache path, and the repeat call returns the same path without
invoking the builder. -/
theorem c3_cache_repeat_witness :
    (cacheGet (strOf "c") [] (strOf "u") (strOf ".x") (strOf "tmp1") (some [7])
        ⟨true, true, true, true⟩).result = some (getCachePath (strOf "c") (strOf "u") (strOf ".x")) ∧
    cacheGet (strOf "c")
        (cacheGet (strOf "c") [] (strOf "u") (strOf ".x") (strOf "tmp1") (some [7])
          ⟨true, true, true, true⟩).fs
        (strOf "u") (strOf ".x") (strOf "tmp2") none ⟨true, true, true, true⟩ =
      ⟨some (getCachePath (strOf "c") (strOf "u") (strOf ".x")),
        (cacheGet (strOf "c") [] (strOf "u") (strOf ".x") (strOf "tmp1") (some [7])
          ⟨true, true, true, true⟩).fs, false⟩ := by
  have h := c3_cache_repeat_returns_same_path.1 (strOf "c") [] (strOf "u")
    (strOf ".x") (strOf "tmp1") (some [7]) ⟨true, true, true, true⟩
    (getCachePath (strOf "c") (strOf "u") (strOf ".x")) rfl
  exact ⟨rfl, h.2.2.1 (strOf "tmp2") none ⟨true, true, true, true⟩⟩

/-- C8: the catalog build fails exactly when the root listing fails; when the
root listing succeeds the result is the concatenation over date buckets in
which a failing bucket contributes nothing (it is omitted, the build still
succeeds); and a bucket whose own listing succeeds never fails from a
subtype-collection failure (those are skipped inside `fetchDateMedia`). -/
theorem c8_catalog_error_policy :
    ∀ (l : Str → Except Str (List DirectoryEntry)) (cfg : Config),
      ((∃ m, fetchAllMedia l cfg = Except.ok m) ↔ (∃ d, l [] = Except.ok d)) ∧
      (∀ dates, l [] = Except.ok dates →
        fetchAllMedia l cfg = Except.ok (dates.foldl
          (fun acc date =>
            if date.isDirectory = false then acc
            else
              match fetchDateMedia l cfg date.name with
              | Except.error _ => acc
              | Except.ok dm => acc ++ dm)
          [])) ∧
      (∀ datePath, (∃ es, l datePath = Except.ok es) →
        ∃ m, fetchDateMedia l cfg datePath = Except.ok m) := by
  intro l cfg
  refine ⟨⟨?_, ?_⟩, ?_, ?_⟩
  · rintro ⟨m, hm⟩
    cases hroot : l [] with
    | error e =>
      rw [fetchAllMedia, hroot] at hm
      exact absurd hm (by simp)
    | ok dates => exact ⟨dates, rfl⟩
  · rintro ⟨d, hd⟩
    exact ⟨_, by rw [fetchAllMedia, hd]⟩
  · intro dates hd
    rw [fetchAllMedia, hd]
  · intro datePath
    rintro ⟨es, hes⟩
    exact ⟨_, by rw [fetchDateMedia, hes]⟩

/-- Witness for C8: a concrete lister whose root listing succeeds but whose
only date bucket fails still yields a successful build, and a concrete
lister for which a date listing succeeds but its image subcollection listing
fails still yields a successful bucket fetch. -/
theorem c8_catalog_error_policy_witness :
    (∃ m, fetchAllMedia
      (fun p => if p = [] then
          Except.ok [⟨strOf "d1/", strOf "d1/", [], [], true⟩]
        else Except.error (strOf "bucket down"))
      sampleConfig = Except.ok m) ∧
    (∃ m, fetchDateMedia
      (fun p => if p = strOf "dd" then
          Except.ok [⟨strOf "images000/", strOf "dd/images000/", [], [], true⟩]
        else Except.error (strOf "subtype down"))
      sampleConfig (strOf "dd") = Except.ok m) := by
  constructor
  · exact (c8_catalog_error_policy
      (fun p => if p = [] then
          Except.ok [⟨strOf "d1/", strOf "d1/", [], [], true⟩]
        else Except.error (strOf "bucket down")) sampleConfig).1.mpr
      ⟨[⟨strOf "d1/", strOf "d1/", [], [], true⟩], rfl⟩
  · exact (c8_catalog_error_policy
      (fun p => if p = strOf "dd" then
          Except.ok [⟨strOf "images000/", strOf "dd/images000/", [], [], true⟩]
        else Except.error (strOf "subtype down")) sampleConfig).2.2 (strOf "dd")
      ⟨[⟨strOf "images000/", strOf "dd/images000/", [], [], true⟩], rfl⟩

theorem count_set_balance {α : Type} [DecidableEq α] :
    ∀ (l : List α) (i : Nat) (old v x : α),
      l.get? i = some old →
      ((l.set i v).count x + (if old = x then 1 else 0) =
        l.count x + (if v = x then 1 else 0)) := by
  intro l
  induction l with
  | nil =>
    intro i old v x h
    simp at h
  | cons a rest ih =>
    intro i old v x h
    cases i with
    | zero =>
      simp only [List.get?] at h
      cases h
      simp only [List.set, List.count_cons, beq_iff_eq]
      omega
    | succ j =>
      simp only [List.get?] at h
      have hr := ih j old v x h
      simp only [List.set, List.count_cons, beq_iff_eq]
      omega

theorem runInv_init (n : Nat) : runInv (runInit n) := by
  unfold runInv runInit
  have hw : (List.replicate n RunPC.fire).count RunPC.working = 0 := by
    simp [List.count_replicate]
  have hr : (List.replicate n RunPC.fire).count RunPC.ranDone = 0 := by
    simp [List.count_replicate]
  rw [hw, hr]
  exact ⟨by omega, by simp, rfl⟩

theorem count_set_of_ne_ne {α : Type} [DecidableEq α] (l : List α) (i : Nat)
    (old v x : α) (h : l.get? i = some old) (h1 : old ≠ x) (h2 : v ≠ x) :
    (l.set i v).count x = l.count x := by
  have hb := count_set_balance l i old v x h
  rw [if_neg h1, if_neg h2] at hb
  omega

theorem count_set_of_ne_eq {α : Type} [DecidableEq α] (l : List α) (i : Nat)
    (old v x : α) (h : l.get? i = some old) (h1 : old ≠ x) (h2 : v = x) :
    (l.set i v).count x = l.count x + 1 := by
  have hb := count_set_balance l i old v x h
  rw [if_neg h1, if_pos h2] at hb
  omega

theorem count_set_of_eq_ne {α : Type} [DecidableEq α] (l : List α) (i : Nat)
    (old v x : α) (h : l.get? i = some old) (h1 : old = x) (h2 : v ≠ x) :
    (l.set i v).count x + 1 = l.count x := by
  have hb := count_set_balance l i old v x h
  rw [if_pos h1, if_neg h2] at hb
  omega

theorem runInv_step (s s' : RunSys) (hstep : RunStep s s') (hinv : runInv s) :
    runInv s' := by
  obtain ⟨h1, h2, h3⟩ := hinv
  cases hstep with
  | drop i hpc hrun =>
    have hcw := count_set_of_ne_ne s.pcs i RunPC.fire RunPC.skipped RunPC.working
      hpc (by decide) (by decide)
    have hcr := count_set_of_ne_ne s.pcs i RunPC.fire RunPC.skipped RunPC.ranDone
      hpc (by decide) (by decide)
    unfold runInv
    dsimp only
    rw [hcw, hcr]
    exact ⟨h1, h2, h3⟩
  | begin i hpc hrun =>
    have hcw := count_set_of_ne_eq s.pcs i RunPC.fire RunPC.working RunPC.working
      hpc (by decide) rfl
    have hcr := count_set_of_ne_ne s.pcs i RunPC.fire RunPC.working RunPC.ranDone
      hpc (by decide) (by decide)
    have hw0 : s.pcs.count RunPC.working = 0 := by
      rcases Nat.eq_zero_or_pos (s.pcs.count RunPC.working) with hz | hp
      · exact hz
      · have hone : s.pcs.count RunPC.working = 1 := by omega
        have := h2.mpr hone
        rw [this] at hrun
        exact absurd hrun (by simp)
    unfold runInv
    dsimp only
    rw [hcw, hcr, hw0]
    refine ⟨by omega, by simp, by omega⟩
  | finish i hpc =>
    have hcw := count_set_of_eq_ne s.pcs i RunPC.working RunPC.ranDone RunPC.working
      hpc rfl (by decide)
    have hcr := count_set_of_ne_eq s.pcs i RunPC.working RunPC.ranDone RunPC.ranDone
      hpc (by decide) rfl
    have hmem : RunPC.working ∈ s.pcs := List.get?_mem hpc
    have hpos : 0 < s.pcs.count RunPC.working := List.count_pos_iff_mem.mpr hmem
    have hcw0 : (s.pcs.set i RunPC.ranDone).count RunPC.working = 0 := by omega
    unfold runInv
    dsimp only
    rw [hcw0, hcr]
    refine ⟨by omega, by simp, by omega⟩

theorem runInv_reachable (n : Nat) (s : RunSys) (h : RunReachable n s) :
    runInv s := by
  induction h with
  | refl => exact runInv_init n
  | tail hsteps hstep ih => exact runInv_step _ _ hstep ih

/-- C9: in every reachable scheduler state at most one run is in progress
(no two runs overlap), and the run counter equals the number of triggers
that began a run — a trigger dropped while a run was in progress contributes
nothing, so an overlapping pair of triggers increments the counter exactly
once. -/
theorem c9_scheduler_overlap_skip :
    ∀ (n : Nat) (s : RunSys), RunReachable n s →
      s.pcs.count RunPC.working ≤ 1 ∧
      s.runs = s.pcs.count RunPC.working + s.pcs.count RunPC.ranDone := by
  intro n s h
  obtain ⟨h1, _, h3⟩ := runInv_reachable n s h
  exact ⟨h1, h3⟩

/-- Witness for C9: the overlapping pair — trigger 0 begins a run, trigger 1
fires while it is still running and is dropped, trigger 0 finishes.  The
final state is reachable, and the run counter is 1 for the pair of
triggers. -/
theorem c9_scheduler_overlap_witness :
    (⟨false, [RunPC.ranDone, RunPC.skipped], 1⟩ : RunSys).runs =
      [RunPC.ranDone, RunPC.skipped].count RunPC.working +
        [RunPC.ranDone, RunPC.skipped].count RunPC.ranDone ∧
    (⟨false, [RunPC.ranDone, RunPC.skipped], 1⟩ : RunSys).runs = 1 := by
  have hreach : RunReachable 2 ⟨false, [RunPC.ranDone, RunPC.skipped], 1⟩ := by
    have h1 : RunStep (runInit 2) ⟨true, [RunPC.working, RunPC.fire], 1⟩ :=
      RunStep.begin (runInit 2) 0 rfl rfl
    have h2 : RunStep (⟨true, [RunPC.working, RunPC.fire], 1⟩ : RunSys)
        ⟨true, [RunPC.working, RunPC.skipped], 1⟩ :=
      RunStep.drop ⟨true, [RunPC.working, RunPC.fire], 1⟩ 1 rfl rfl
    have h3 : RunStep (⟨true, [RunPC.working, RunPC.skipped], 1⟩ : RunSys)
        ⟨false, [RunPC.ranDone, RunPC.skipped], 1⟩ :=
      RunStep.finish ⟨true, [RunPC.working, RunPC.skipped], 1⟩ 0 rfl
    exact Relation.ReflTransGen.head h1 (Relation.ReflTransGen.head h2
      (Relation.ReflTransGen.single h3))
  exact ⟨(c9_scheduler_overlap_skip 2 _ hreach).2, rfl⟩

theorem getInv_init (n : Nat) : getInv (getInit n) := by
  unfold getInv getInit
  dsimp only
  refine ⟨?_, ?_, ?_, by omega, ?_⟩
  · intro i hi
    rcases hi with hi | hi <;>
      exact absurd (List.eq_of_mem_replicate (List.get?_mem hi)) (by decide)
  · intro i hi
    cases hi
  · intro _
    refine ⟨rfl, ?_, ?_⟩ <;> simp [List.count_replicate]
  · intro h
    cases h

theorem getInv_step (s s' : GetSys) (hstep : GetStep s s') (hinv : getInv s) :
    getInv s' := by
  obtain ⟨i1, i2, i3, i4, i5⟩ := hinv
  cases hstep with
  | fastHit i hpc hex =>
    obtain ⟨hlt, -⟩ := List.get?_eq_some.mp hpc
    unfold getInv
    dsimp only
    refine ⟨?_, ?_, ?_, i4, ?_⟩
    · intro j hj
      by_cases hji : j = i
      · subst hji
        rw [List.get?_set_eq_of_lt GetPC.done hlt] at hj
        rcases hj with hj | hj <;> exact absurd (Option.some_inj.mp hj) (by decide)
      · rw [List.get?_set_ne GetPC.done s.pcs (fun h => hji h.symm)] at hj
        exact i1 j hj
    · intro j hj
      have hs := i2 j hj
      have hji : j ≠ i := by
        intro hji
        subst hji
        rw [hpc] at hs
        rcases hs with hs | hs <;> exact absurd (Option.some_inj.mp hs) (by decide)
      rw [List.get?_set_ne GetPC.done s.pcs (fun h => hji h.symm)]
      exact hs
    · intro hb0
      have h5 := (i3 hb0).1
      rw [hex] at h5
      exact Bool.noConfusion h5
    · intro _
      exact Or.inl hex
  | fastMiss i hpc hex =>
    obtain ⟨hlt, -⟩ := List.get?_eq_some.mp hpc
    unfold getInv
    dsimp only
    refine ⟨?_, ?_, ?_, i4, ?_⟩
    · intro j hj
      by_cases hji : j = i
      · subst hji
        rw [List.get?_set_eq_of_lt GetPC.waiting hlt] at hj
        rcases hj with hj | hj <;> exact absurd (Option.some_inj.mp hj) (by decide)
      · rw [List.get?_set_ne GetPC.waiting s.pcs (fun h => hji h.symm)] at hj
        exact i1 j hj
    · intro j hj
      have hs := i2 j hj
      have hji : j ≠ i := by
        intro hji
        subst hji
        rw [hpc] at hs
        rcases hs with hs | hs <;> exact absurd (Option.some_inj.mp hs) (by decide)
      rw [List.get?_set_ne GetPC.waiting s.pcs (fun h => hji h.symm)]
      exact hs
    · intro hb0
      obtain ⟨hfe, hcb, hcd⟩ := i3 hb0
      refine ⟨hfe, ?_, ?_⟩
      · rw [count_set_of_ne_ne s.pcs i GetPC.start GetPC.waiting GetPC.building
          hpc (by decide) (by decide)]
        exact hcb
      · rw [count_set_of_ne_ne s.pcs i GetPC.start GetPC.waiting GetPC.done
          hpc (by decide) (by decide)]
        exact hcd
    · intro hb1
      rcases i5 hb1 with h | h
      · exact Or.inl h
      · refine Or.inr ?_
        rw [count_set_of_ne_ne s.pcs i GetPC.start GetPC.waiting GetPC.building
          hpc (by decide) (by decide)]
        exact h
  | acquire i hpc hlock =>
    obtain ⟨hlt, -⟩ := List.get?_eq_some.mp hpc
    unfold getInv
    dsimp only
    refine ⟨?_, ?_, ?_, i4, ?_⟩
    · intro j hj
      by_cases hji : j = i
      · subst hji
        rfl
      · rw [List.get?_set_ne GetPC.locked s.pcs (fun h => hji h.symm)] at hj
        have := i1 j hj
        rw [hlock] at this
        exact Option.noConfusion this
    · intro j hj
      have hji : i = j := Option.some_inj.mp hj
      subst hji
      exact Or.inl (List.get?_set_eq_of_lt GetPC.locked hlt)
    · intro hb0
      obtain ⟨hfe, hcb, hcd⟩ := i3 hb0
      refine ⟨hfe, ?_, ?_⟩
      · rw [count_set_of_ne_ne s.pcs i GetPC.waiting GetPC.locked GetPC.building
          hpc (by decide) (by decide)]
        exact hcb
      · rw [count_set_of_ne_ne s.pcs i GetPC.waiting GetPC.locked GetPC.done
          hpc (by decide) (by decide)]
        exact hcd
    · intro hb1
      rcases i5 hb1 with h | h
      · exact Or.inl h
      · refine Or.inr ?_
        rw [count_set_of_ne_ne s.pcs i GetPC.waiting GetPC.locked GetPC.building
          hpc (by decide) (by decide)]
        exact h
  | recheckHit i hpc hex =>
    obtain ⟨hlt, -⟩ := List.get?_eq_some.mp hpc
    unfold getInv
    dsimp only
    refine ⟨?_, ?_, ?_, i4, ?_⟩
    · intro j hj
      by_cases hji : j = i
      · subst hji
        rw [List.get?_set_eq_of_lt GetPC.done hlt] at hj
        rcases hj with hj | hj <;> exact absurd (Option.some_inj.mp hj) (by decide)
      · rw [List.get?_set_ne GetPC.done s.pcs (fun h => hji h.symm)] at hj
        have hlj := i1 j hj
        have hli := i1 i (Or.inl hpc)
        rw [hli] at hlj
        exact absurd (Option.some_inj.mp hlj) (fun h => hji h.symm)
    · intro j hj
      exact Option.noConfusion hj
    · intro hb0
      have h5 := (i3 hb0).1
      rw [hex] at h5
      exact Bool.noConfusion h5
    · intro _
      exact Or.inl hex
  | recheckMiss i hpc hex =>
    obtain ⟨hlt, -⟩ := List.get?_eq_some.mp hpc
    have hb0 : s.builds = 0 := by
      rcases Nat.eq_zero_or_pos s.builds with hz | hp
      · exact hz
      · exfalso
        have hb1 : s.builds = 1 := by omega
        rcases i5 hb1 with hfe | hcb
        · rw [hex] at hfe
          exact Bool.noConfusion hfe
        · have hmem : GetPC.building ∈ s.pcs := List.count_pos_iff_mem.mp (by omega)
          obtain ⟨j, hj⟩ := List.get?_of_mem hmem
          have h1i := i1 i (Or.inl hpc)
          have h1j := i1 j (Or.inr hj)
          rw [h1i] at h1j
          have hij : i = j := Option.some_inj.mp h1j
          subst hij
          rw [hpc] at hj
          exact absurd (Option.some_inj.mp hj) (by decide)
    unfold getInv
    dsimp only
    refine ⟨?_, ?_, ?_, by omega, ?_⟩
    · intro j hj
      by_cases hji : j = i
      · subst hji
        exact i1 j (Or.inl hpc)
      · rw [List.get?_set_ne GetPC.building s.pcs (fun h => hji h.symm)] at hj
        exact i1 j hj
    · intro j hj
      have hs := i2 j hj
      by_cases hji : j = i
      · subst hji
        exact Or.inr (List.get?_set_eq_of_lt GetPC.building hlt)
      · rw [List.get?_set_ne GetPC.building s.pcs (fun h => hji h.symm)]
        exact hs
    · intro hb
      exact absurd hb (by omega)
    · intro _
      refine Or.inr ?_
      rw [count_set_of_ne_eq s.pcs i GetPC.locked GetPC.building GetPC.building
        hpc (by decide) rfl, (i3 hb0).2.1]
  | finish i hpc =>
    obtain ⟨hlt, -⟩ := List.get?_eq_some.mp hpc
    unfold getInv
    dsimp only
    refine ⟨?_, ?_, ?_, i4, ?_⟩
    · intro j hj
      by_cases hji : j = i
      · subst hji
        rw [List.get?_set_eq_of_lt GetPC.done hlt] at hj
        rcases hj with hj | hj <;> exact absurd (Option.some_inj.mp hj) (by decide)
      · rw [List.get?_set_ne GetPC.done s.pcs (fun h => hji h.symm)] at hj
        have hlj := i1 j hj
        have hli := i1 i (Or.inr hpc)
        rw [hli] at hlj
        exact absurd (Option.some_inj.mp hlj) (fun h => hji h.symm)
    · intro j hj
      exact Option.noConfusion hj
    · intro hb0
      have hcb := (i3 hb0).2.1
      have hmem : GetPC.building ∈ s.pcs := List.get?_mem hpc
      have hpos : 0 < s.pcs.count GetPC.building := List.count_pos_iff_mem.mpr hmem
      exact absurd hcb (by omega)
    · intro _
      exact Or.inl rfl

theorem getInv_reachable (n : Nat) (s : GetSys) (h : GetReachable n s) :
    getInv s := by
  induction h with
  | refl => exact getInv_init n
  | tail hsteps hstep ih => exact getInv_step _ _ hstep ih

theorem getReachable_length (n : Nat) (s : GetSys) (h : GetReachable n s) :
    s.pcs.length = n := by
  induction h with
  | refl => exact List.length_replicate n GetPC.start
  | tail hsteps hstep ih =>
    cases hstep <;> simpa [List.length_set] using ih

/-- C1: under N concurrent `Get` (or `GetWithFile`) calls for the same key
with a succeeding builder, the builder body executes at most once in every
reachable state, and exactly once in every reachable state in which all N
callers have returned (with N ≥ 1): each of the other callers either
observed the finished file on the fast path or waited on the per-key mutex,
re-checked, and returned without building. -/
theorem c1_builder_runs_exactly_once :
    ∀ (n : Nat) (s : GetSys), GetReachable n s →
      s.builds ≤ 1 ∧
      (1 ≤ n → s.pcs.count GetPC.done = s.pcs.length → s.builds = 1) := by
  intro n s h
  obtain ⟨i1, i2, i3, i4, i5⟩ := getInv_reachable n s h
  have hlen := getReachable_length n s h
  refine ⟨i4, fun hn hdone => ?_⟩
  rcases Nat.eq_zero_or_pos s.builds with hz | hp
  · exfalso
    have h30 := (i3 hz).2.2
    rw [hdone] at h30
    omega
  · omega

/-- Witness for C1: a complete two-caller interleaving — caller 0 misses the
fast path, acquires the lock, builds and installs the file; caller 1 misses
the fast path, waits, acquires after the release, re-checks, sees the file
and returns without building.  The terminal state is reachable and its build
count is exactly 1. -/
theorem c1_builder_exactly_once_witness :
    (⟨true, none, [GetPC.done, GetPC.done], 1⟩ : GetSys).builds = 1 := by
  have h1 : GetStep (getInit 2) ⟨false, none, [GetPC.waiting, GetPC.start], 0⟩ :=
    GetStep.fastMiss (getInit 2) 0 rfl rfl
  have h2 : GetStep (⟨false, none, [GetPC.waiting, GetPC.start], 0⟩ : GetSys)
      ⟨false, none, [GetPC.waiting, GetPC.waiting], 0⟩ :=
    GetStep.fastMiss ⟨false, none, [GetPC.waiting, GetPC.start], 0⟩ 1 rfl rfl
  have h3 : GetStep (⟨false, none, [GetPC.waiting, GetPC.waiting], 0⟩ : GetSys)
      ⟨false, some 0, [GetPC.locked, GetPC.waiting], 0⟩ :=
    GetStep.acquire ⟨false, none, [GetPC.waiting, GetPC.waiting], 0⟩ 0 rfl rfl
  have h4 : GetStep (⟨false, some 0, [GetPC.locked, GetPC.waiting], 0⟩ : GetSys)
      ⟨false, some 0, [GetPC.building, GetPC.waiting], 1⟩ :=
    GetStep.recheckMiss ⟨false, some 0, [GetPC.locked, GetPC.waiting], 0⟩ 0 rfl rfl
  have h5 : GetStep (⟨false, some 0, [GetPC.building, GetPC.waiting], 1⟩ : GetSys)
      ⟨true, none, [GetPC.done, GetPC.waiting], 1⟩ :=
    GetStep.finish ⟨false, some 0, [GetPC.building, GetPC.waiting], 1⟩ 0 rfl
  have h6 : GetStep (⟨true, none, [GetPC.done, GetPC.waiting], 1⟩ : GetSys)
      ⟨true, some 1, [GetPC.done, GetPC.locked], 1⟩ :=
    GetStep.acquire ⟨true, none, [GetPC.done, GetPC.waiting], 1⟩ 1 rfl rfl
  have h7 : GetStep (⟨true, some 1, [GetPC.done, GetPC.locked], 1⟩ : GetSys)
      ⟨true, none, [GetPC.done, GetPC.done], 1⟩ :=
    GetStep.recheckHit ⟨true, some 1, [GetPC.done, GetPC.locked], 1⟩ 1 rfl rfl
  have hreach : GetReachable 2 ⟨true, none, [GetPC.done, GetPC.done], 1⟩ :=
    Relation.ReflTransGen.head h1 (Relation.ReflTransGen.head h2
      (Relation.ReflTransGen.head h3 (Relation.ReflTransGen.head h4
        (Relation.ReflTransGen.head h5 (Relation.ReflTransGen.head h6
          (Relation.ReflTransGen.single h7))))))
  exact (c1_builder_runs_exactly_once 2 _ hreach).2 (by omega) (by decide)
